import Mathlib

/-!
# hanko: verified-email commit hook and user listing queries

A shallow embedding of

* `EmailPersistVerifiedStatus.Execute`
  (`backend/flow_api/flow/shared/hook_email_persist_verified_status.go`), and
* `userPersister.List`, `userPersister.Count`, `userPersister.addQueryParamsToSqlQuery`
  (`backend/persistence/user_persister.go`).

The database is an explicit `Store` value (one list of rows per table), the hook is a
function from a store to an `Outcome` holding the returned error, the store afterwards and
the trace of every call made to a collaborator (email persister, primary-email persister,
audit logger, webhook notifier).  Timestamps of rows are not part of the embedding, except
`users.created_at`, which the listing query sorts by.
-/

namespace Hanko

/-! ## Data model -/

/-- A `uuid.UUID`: sixteen bytes, read as a number.  Two ids have the same canonical string
(`ID.String()`) exactly when they are equal, so comparisons of those strings are comparisons
of the ids. -/
abbrev UUID := Nat

/-- A Go `error`: either created with `errors.New(msg)`, or `fmt.Errorf(msg + ": %w", cause)`
wrapping a cause. -/
inductive Error where
  | new (msg : String)
  | wrap (msg : String) (cause : Error)
  deriving DecidableEq, Repr

/-- Row of table `emails` (`models.Email`); `userID` is nullable. -/
structure Email where
  id : UUID
  userID : Option UUID
  address : String
  verified : Bool
  deriving DecidableEq, Repr

/-- Row of table `primary_emails` (`models.PrimaryEmail`). -/
structure PrimaryEmail where
  id : UUID
  emailID : UUID
  userID : UUID
  deriving DecidableEq, Repr

/-- Row of table `usernames` (`models.Username`). -/
structure Username where
  id : UUID
  userID : UUID
  username : String
  deriving DecidableEq, Repr

/-- Row of table `webauthn_credentials`, with the MFA-only flag. -/
structure WebauthnCredential where
  id : UUID
  userID : UUID
  mfaOnly : Bool
  deriving DecidableEq, Repr

/-- Row of table `users`. -/
structure UserRow where
  id : UUID
  createdAt : Nat
  deriving DecidableEq, Repr

/-- The database: one list of rows per table, in insertion order.  `otpSecrets` and
`metadata` hold the id of the owning user of each row. -/
structure Store where
  users : List UserRow
  emails : List Email
  primaryEmails : List PrimaryEmail
  usernames : List Username
  webauthnCredentials : List WebauthnCredential
  otpSecrets : List UUID
  metadata : List UUID
  deriving DecidableEq, Repr

/-- The key constraints of table `emails`: `id` is the primary key and `address` carries a
unique index ("globally unique across all users"). -/
def Store.Valid (s : Store) : Prop :=
  (s.emails.map (·.id)).Nodup ∧ (s.emails.map (·.address)).Nodup

instance (s : Store) : Decidable s.Valid := by
  unfold Store.Valid; infer_instance

/-- Modelled from the spec: the hydrated user (`models.User`, not under src/): the row of
`users` with the owned sub-entities that are loaded with it.  It is what `List` returns and
what the caller of the hook may be tracking as a live in-memory view (its emails and its
primary pointer). -/
structure User where
  id : UUID
  createdAt : Nat
  emails : List Email
  primaryEmail : Option PrimaryEmail
  webauthnCredentials : List WebauthnCredential
  username : Option Username
  deriving DecidableEq, Repr

/-- Modelled from the spec: `User.SetPrimaryEmail` (not under src/), "update its primary
pointer". -/
def User.SetPrimaryEmail (u : User) (p : PrimaryEmail) : User :=
  { u with primaryEmail := some p }

/-- Modelled from the spec: `User.UpdateEmail` (not under src/), "update the corresponding
Email entry in place". -/
def User.UpdateEmail (u : User) (e : Email) : User :=
  { u with emails := u.emails.map (fun x => if x.id = e.id then e else x) }

/-! ## Scratch space -/

/-- The stash paths read by the hook (constants of package `shared`, not under src/). -/
inductive StashPath where
  | StashPathEmailVerified
  | StashPathEmail
  | StashPathUserID
  | StashPathLoginMethod
  deriving DecidableEq, Repr

export StashPath (StashPathEmailVerified StashPathEmail StashPathUserID StashPathLoginMethod)

/-- Modelled from the spec: what `Stash().Get(path)` returns (the stash is not under src/), "a
scratch key/value space with typed accessors (string, bool, existence check)".  A path is
either absent, or holds a value for which the bool accessor returns `bool` and the string
accessor returns `string`. -/
inductive Result where
  | absent
  | present (bool : Bool) (string : String)
  deriving DecidableEq, Repr

/-- Modelled from the spec: the existence check of a stash value. -/
def Result.Exists : Result → Bool
  | .absent => false
  | .present _ _ => true

/-- Modelled from the spec: the bool accessor of a stash value; an absent value reads as
false. -/
def Result.Bool : Result → Bool
  | .absent => false
  | .present b _ => b

/-- Modelled from the spec: the string accessor of a stash value; an absent value reads as
the empty string. -/
def Result.String : Result → String
  | .absent => ""
  | .present _ s => s

/-- Modelled from the spec: `flowpilot.HookExecutionContext` (not under src/): the stash, the
flow id and the value stored under `"session_user"`, if it is a `*models.User`. -/
structure HookExecutionContext where
  Stash : StashPath → Result
  GetFlowID : String
  sessionUser : Option User

/-! ## Collaborators -/

/-- Audit log types used by the hook (`models.AuditLogEmailVerified`,
`models.AuditLogEmailCreated`). -/
inductive AuditLogType where
  | AuditLogEmailVerified
  | AuditLogEmailCreated
  deriving DecidableEq, Repr

export AuditLogType (AuditLogEmailVerified AuditLogEmailCreated)

/-- Webhook events used by the hook (`events.UserEmailCreate`). -/
inductive Event where
  | UserEmailCreate
  deriving DecidableEq, Repr

export Event (UserEmailCreate)

/-- A call made by the hook to a collaborator, with its arguments. -/
inductive Effect where
  | findByAddress (address : String)
  | createEmail (email : Email)
  | findByUserId (userID : UUID)
  | createPrimaryEmail (primaryEmail : PrimaryEmail)
  | updateEmail (email : Email)
  | audit (type : AuditLogType) (userID : UUID) (email : String) (flowID : String)
  | notify (event : Event) (userID : UUID)
  deriving DecidableEq, Repr

/-- A store read or write. -/
def Effect.isStore : Effect → Bool
  | .audit _ _ _ _ => false
  | .notify _ _ => false
  | _ => true

/-- A call to the audit logger. -/
def Effect.isAudit : Effect → Bool
  | .audit _ _ _ _ => true
  | _ => false

/-- A call to the audit logger with the given audit log type. -/
def Effect.isAuditOf (t : AuditLogType) : Effect → Bool
  | .audit type _ _ _ => type = t
  | _ => false

/-- A call to the webhook notifier. -/
def Effect.isNotify : Effect → Bool
  | .notify _ _ => true
  | _ => false

/-- What is outside the hook during one run: the uuid parser (`uuid.FromString`), the fresh
ids drawn by `models.NewEmail` and `models.NewPrimaryEmail`, and, for every call to a
collaborator, whether it fails for a reason of its own (infrastructure) and with which
error. -/
structure Deps where
  FromString : String → Except Error UUID
  newEmailID : UUID
  newPrimaryEmailID : UUID
  fails : Effect → Option Error

/-- The state threaded through a run: the store, the live user view, and the calls made so
far (oldest first). -/
structure World where
  store : Store
  sessionUser : Option User
  trace : List Effect
  deriving DecidableEq, Repr

/-- What a run of the hook leaves behind: the returned error (`none` is `nil`) and the
final state. -/
structure Outcome where
  err : Option Error
  world : World
  deriving DecidableEq, Repr

/-- Append a call to the trace. -/
def World.log (w : World) (e : Effect) : World :=
  { w with trace := w.trace ++ [e] }

/-- The error of the database when a unique key is violated. -/
def uniqueViolation : Error := .new "duplicate key value violates unique constraint"

/-- Modelled from the spec: `EmailPersister.FindByAddress` (not under src/), "look up an
existing Email by the pending address (global lookup, not scoped to the user)". -/
def EmailPersister.FindByAddress (d : Deps) (w : World) (address : String) :
    Except Error (Option Email) × World :=
  let w1 := w.log (.findByAddress address)
  match d.fails (.findByAddress address) with
  | some err => (.error err, w1)
  | none => (.ok (w.store.emails.find? (fun e => e.address = address)), w1)

/-- Modelled from the spec: `EmailPersister.FindByUserId` (not under src/), "re-query the
user's emails". -/
def EmailPersister.FindByUserId (d : Deps) (w : World) (userID : UUID) :
    Except Error (List Email) × World :=
  let w1 := w.log (.findByUserId userID)
  match d.fails (.findByUserId userID) with
  | some err => (.error err, w1)
  | none => (.ok (w.store.emails.filter (fun e => e.userID = some userID)), w1)

/-- Modelled from the spec: `EmailPersister.Create` (not under src/): inserts the row, unless
the database refuses it (primary key `id`, unique `address`).  A failing call writes
nothing. -/
def EmailPersister.Create (d : Deps) (w : World) (email : Email) : Option Error × World :=
  let w1 := w.log (.createEmail email)
  match d.fails (.createEmail email) with
  | some err => (some err, w1)
  | none =>
    if email.id ∈ w.store.emails.map (·.id) ∨ email.address ∈ w.store.emails.map (·.address) then
      (some uniqueViolation, w1)
    else
      (none, { w1 with store := { w.store with emails := w.store.emails ++ [email] } })

/-- Modelled from the spec: `EmailPersister.Update` (not under src/), "persist the update":
rewrites the row with the model's id, unless the database refuses it (unique `address`).
A failing call writes nothing. -/
def EmailPersister.Update (d : Deps) (w : World) (email : Email) : Option Error × World :=
  let w1 := w.log (.updateEmail email)
  match d.fails (.updateEmail email) with
  | some err => (some err, w1)
  | none =>
    if ∃ e ∈ w.store.emails, e.id ≠ email.id ∧ e.address = email.address then
      (some uniqueViolation, w1)
    else
      (none, { w1 with store := { w.store with
        emails := w.store.emails.map (fun e => if e.id = email.id then email else e) } })

/-- Modelled from the spec: `PrimaryEmailPersister.Create` (not under src/): inserts the row,
unless the database refuses it (primary key `id`).  A failing call writes nothing. -/
def PrimaryEmailPersister.Create (d : Deps) (w : World) (p : PrimaryEmail) :
    Option Error × World :=
  let w1 := w.log (.createPrimaryEmail p)
  match d.fails (.createPrimaryEmail p) with
  | some err => (some err, w1)
  | none =>
    if p.id ∈ w.store.primaryEmails.map (·.id) then
      (some uniqueViolation, w1)
    else
      (none, { w1 with store := { w.store with primaryEmails := w.store.primaryEmails ++ [p] } })

/-- Modelled from the spec: `AuditLogger.CreateWithConnection` (not under src/),
`Create(tx, requestCtx, eventKind, subjectUser, actorUser, ...detail pairs) → error`, with
the details `email` and `flow_id`. -/
def AuditLogger.CreateWithConnection (d : Deps) (w : World) (type : AuditLogType)
    (userID : UUID) (email flowID : String) : Option Error × World :=
  (d.fails (.audit type userID email flowID), w.log (.audit type userID email flowID))

/-- Modelled from the spec: `utils.NotifyUserChange` (not under src/), fire-and-forget: it
returns nothing, whatever its outcome `d.fails (.notify event userID)` is. -/
def NotifyUserChange (_d : Deps) (w : World) (event : Event) (userID : UUID) : World :=
  w.log (.notify event userID)

/-- Modelled from the spec: `models.NewEmail` (not under src/): a new, unverified email of
the user with a fresh id. -/
def NewEmail (d : Deps) (userID : UUID) (address : String) : Email :=
  { id := d.newEmailID, userID := some userID, address := address, verified := false }

/-- Modelled from the spec: `models.NewPrimaryEmail` (not under src/): "a PrimaryEmail
linking to it", with a fresh id. -/
def NewPrimaryEmail (d : Deps) (emailID userID : UUID) : PrimaryEmail :=
  { id := d.newPrimaryEmailID, emailID := emailID, userID := userID }

/-! ## `EmailPersistVerifiedStatus.Execute` -/

/-- Lines 45-89 of the hook: create the email (and promote it), or flip it to verified, or
do nothing.  Returns `emailCreated`, or the error the hook returns. -/
def persistStage (d : Deps) (w : World) (userId : UUID) (emailAddressToVerify : String)
    (emailAddressToVerifyModel : Option Email) : Except Error Bool × World :=
  match emailAddressToVerifyModel with
  | none =>
    let newEmailModel := { NewEmail d userId emailAddressToVerify with verified := true }
    match EmailPersister.Create d w newEmailModel with
    | (some err, w1) => (.error (.wrap "could not save email" err), w1)
    | (none, w1) =>
      match EmailPersister.FindByUserId d w1 userId with
      | (.error err, w2) => (.error (.wrap "could fetch emails" err), w2)
      | (.ok emailModels, w2) =>
        let w3 : World :=
          { w2 with sessionUser :=
              w2.sessionUser.map (fun u => { u with emails := u.emails ++ [newEmailModel] }) }
        if emailModels.length = 1 ∧ (emailModels.map (·.id)).head? = some newEmailModel.id then
          let primaryEmailModel := NewPrimaryEmail d newEmailModel.id userId
          match PrimaryEmailPersister.Create d w3 primaryEmailModel with
          | (some err, w4) => (.error (.wrap "could not save primary email" err), w4)
          | (none, w4) =>
            (.ok true,
              { w4 with sessionUser := w4.sessionUser.map (·.SetPrimaryEmail primaryEmailModel) })
        else
          (.ok true, w3)
  | some found =>
    if !found.verified then
      let updated := { found with verified := true }
      match EmailPersister.Update d w updated with
      | (some err, w1) => (.error (.wrap "could not update email" err), w1)
      | (none, w1) =>
        (.ok false, { w1 with sessionUser := w1.sessionUser.map (·.UpdateEmail updated) })
    else
      (.ok false, w)

/-- Lines 91-125 of the hook: the audit log entries and the webhook notification. -/
def auditStage (d : Deps) (c : HookExecutionContext) (w : World) (userId : UUID)
    (emailAddressToVerify : String) (emailCreated : Bool) : Outcome :=
  let verifiedAudit : Option Error × World :=
    if (c.Stash StashPathLoginMethod).String ≠ "passcode" then
      AuditLogger.CreateWithConnection d w AuditLogEmailVerified userId emailAddressToVerify
        c.GetFlowID
    else
      (none, w)
  match verifiedAudit with
  | (some err, w1) => ⟨some (.wrap "could not create audit log" err), w1⟩
  | (none, w1) =>
    if emailCreated then
      match AuditLogger.CreateWithConnection d w1 AuditLogEmailCreated userId emailAddressToVerify
          c.GetFlowID with
      | (some err, w2) => ⟨some (.wrap "could not create audit log" err), w2⟩
      | (none, w2) => ⟨none, NotifyUserChange d w2 UserEmailCreate userId⟩
    else
      ⟨none, w1⟩

/-- The hook `EmailPersistVerifiedStatus.Execute`, run on store `s`. -/
def Execute (d : Deps) (c : HookExecutionContext) (s : Store) : Outcome :=
  let w : World := ⟨s, c.sessionUser, []⟩
  if !(c.Stash StashPathEmailVerified).Bool then
    ⟨none, w⟩
  else if !(c.Stash StashPathEmail).Exists then
    ⟨some (.new "verified email not set on the stash"), w⟩
  else if !(c.Stash StashPathUserID).Exists then
    ⟨some (.new "user_id not set on the stash"), w⟩
  else
    match d.FromString (c.Stash StashPathUserID).String with
    | .error err => ⟨some (.wrap "failed to parse stashed user_id into a uuid" err), w⟩
    | .ok userId =>
      let emailAddressToVerify := (c.Stash StashPathEmail).String
      match EmailPersister.FindByAddress d w emailAddressToVerify with
      | (.error err, w1) => ⟨some (.wrap "could not fetch email" err), w1⟩
      | (.ok emailAddressToVerifyModel, w1) =>
        match persistStage d w1 userId emailAddressToVerify emailAddressToVerifyModel with
        | (.error err, w2) => ⟨some err, w2⟩
        | (.ok emailCreated, w2) => auditStage d c w2 userId emailAddressToVerify emailCreated

/-! ## The primary-email invariant -/

/-- Each user has at most one primary email, and every primary email references a verified
email owned by the same user. -/
def PrimaryEmailInvariant (s : Store) : Prop :=
  (∀ u : UUID, (s.primaryEmails.filter (fun p => p.userID = u)).length ≤ 1) ∧
  (∀ p ∈ s.primaryEmails,
    ∃ e ∈ s.emails, e.id = p.emailID ∧ e.userID = some p.userID ∧ e.verified = true)

/-! ## Example data -/

/-- A uuid parser for the examples: it accepts the string "7" only. -/
def exFromString : String → Except Error UUID :=
  fun s => if s = "7" then .ok 7 else .error (.new "uuid: incorrect UUID length")

/-- Collaborators that never fail and draw the ids 100 and 200. -/
def exDeps : Deps := ⟨exFromString, 100, 200, fun _ => none⟩

/-- Collaborators whose lookup by address fails. -/
def exDepsLookupFails : Deps :=
  ⟨exFromString, 100, 200, fun e =>
    match e with
    | .findByAddress _ => some (.new "connection refused")
    | _ => none⟩

/-- Collaborators whose audit logger fails on "email created", and whose notifier fails. -/
def exDepsAuditFails : Deps :=
  ⟨exFromString, 100, 200, fun e =>
    match e with
    | .audit AuditLogEmailCreated _ _ _ => some (.new "audit log unavailable")
    | .notify _ _ => some (.new "webhook unreachable")
    | _ => none⟩

/-- A stash with verified = true, email "a@x.com", user id "7" and the given login method. -/
def exStash (loginMethod : String) : StashPath → Result
  | StashPathEmailVerified => .present true "true"
  | StashPathEmail => .present false "a@x.com"
  | StashPathUserID => .present false "7"
  | StashPathLoginMethod => .present false loginMethod

/-- A context with the stash `exStash loginMethod` and no live user view. -/
def exContext (loginMethod : String) : HookExecutionContext :=
  ⟨exStash loginMethod, "flow-1", none⟩

/-- A context whose stash is empty. -/
def exContextEmpty : HookExecutionContext := ⟨fun _ => .absent, "flow-1", none⟩

/-- A context whose stash holds only verified = true. -/
def exContextNoEmail : HookExecutionContext :=
  ⟨fun p => match p with
    | StashPathEmailVerified => .present true "true"
    | _ => .absent, "flow-1", none⟩

/-- A context whose stash holds verified = true and an email, but no user id. -/
def exContextNoUser : HookExecutionContext :=
  ⟨fun p => match p with
    | StashPathEmailVerified => .present true "true"
    | StashPathEmail => .present false "a@x.com"
    | _ => .absent, "flow-1", none⟩

/-- A context whose stash holds a user id that does not parse. -/
def exContextBadUser : HookExecutionContext :=
  ⟨fun p => match p with
    | StashPathEmailVerified => .present true "true"
    | StashPathEmail => .present false "a@x.com"
    | StashPathUserID => .present false "not-a-uuid"
    | _ => .absent, "flow-1", none⟩

/-- Scenario A: user 7 has no emails. -/
def exStoreA : Store := ⟨[⟨7, 0⟩], [], [], [], [], [], []⟩

/-- Scenario B: user 7 owns "a@x.com" (unverified) and "b@x.com" (verified, primary). -/
def exStoreB : Store :=
  ⟨[⟨7, 0⟩], [⟨1, some 7, "a@x.com", false⟩, ⟨2, some 7, "b@x.com", true⟩], [⟨10, 2, 7⟩],
    [], [], [], []⟩

/-- Scenario E: user 7 owns "a@x.com", verified and primary. -/
def exStoreE : Store :=
  ⟨[⟨7, 0⟩], [⟨1, some 7, "a@x.com", true⟩], [⟨10, 1, 7⟩], [], [], [], []⟩

/-! ## `userPersister.List` and `userPersister.Count`

The two queries are built with the `pop` query builder and run by the database.  The
embedding follows the SQL that is generated:

```
SELECT users.* FROM users
  LEFT JOIN emails ON emails.user_id = users.id
  LEFT JOIN usernames ON usernames.user_id = users.id
  WHERE <where fragments joined with AND>
  GROUP BY users.id
  HAVING count(emails.id) > 0 OR count(usernames.id) > 0
  ORDER BY users.created_at <sortDirection>  LIMIT <perPage> OFFSET <(page - 1) * perPage>
```

What the SQL text leaves to the database that runs it is a parameter, `Database`.
-/

/-- What is left to the database that runs the statements:

* `fails`: the failure of its own (connection, timeout), if it fails;
* `fold`: the collation of `LIKE`, which compares characters after folding them (the
  identity on a case-sensitive database, lower-casing on one that ignores case);
* `escape`: the escape character of `LIKE` patterns, if the database has one (the backslash
  on PostgreSQL and MySQL, none on SQLite);
* `direction`: how it reads the text spliced after `ORDER BY users.created_at`: ascending
  (`false`), descending (`true`), or the error it refuses the statement with;
* `tieBreak`: the order it gives to rows of equal `created_at`, which SQL leaves open;
* `negativeOffset`: the number of rows it skips for a negative `OFFSET`, or the error it
  refuses the statement with. -/
structure Database where
  fails : Option Error
  fold : Char → Char
  escape : Option Char
  direction : String → Except Error Bool
  tieBreak : String → UserRow → UserRow → Bool
  negativeOffset : Int → Except Error Nat

/-- The SQL operator `text LIKE pattern` on character lists, pattern first: `%` matches any
sequence of characters, `_` matches any single character, the escape character makes the
pattern character after it stand for itself, and every other character matches the
characters the collation folds to the same character.  `escaped` says that the pattern
character before was the escape character.  (A pattern that ends in the escape character
matches nothing here; the patterns of this program end in `%`.) -/
def likeMatch (fold : Char → Char) (escape : Option Char) :
    Bool → List Char → List Char → Bool
  | escaped, [], t => !escaped && t.isEmpty
  | escaped, p :: ps, t =>
    if escaped then
      match t with
      | [] => false
      | c :: cs => fold p = fold c && likeMatch fold escape false ps cs
    else if p = '%' then
      t.tails.any (fun suffix => likeMatch fold escape false ps suffix)
    else if p = '_' then
      match t with
      | [] => false
      | _ :: cs => likeMatch fold escape false ps cs
    else if some p = escape then
      likeMatch fold escape true ps t
    else
      match t with
      | [] => false
      | c :: cs => fold p = fold c && likeMatch fold escape false ps cs

/-- `text LIKE pattern` on strings, on the database `db`. -/
def like (db : Database) (text pattern : String) : Bool :=
  likeMatch db.fold db.escape false pattern.data text.data

/-- A row of `users LEFT JOIN emails LEFT JOIN usernames`; a side without a matching row is
NULL (`none`). -/
structure JoinedRow where
  user : UserRow
  email : Option Email
  username : Option Username
  deriving DecidableEq, Repr

/-- The right side of a left join for one left row: the matching rows, or a single NULL
when there is none. -/
def nullExtend {α : Type} (l : List α) : List (Option α) :=
  if l.isEmpty then [none] else l.map some

/-- The rows `users LEFT JOIN emails ON emails.user_id = users.id LEFT JOIN usernames ON
usernames.user_id = users.id` has for the user row `u`. -/
def joinedRowsOf (s : Store) (u : UserRow) : List JoinedRow :=
  (nullExtend (s.emails.filter (fun e => e.userID = some u.id))).flatMap fun e =>
    (nullExtend (s.usernames.filter (fun n => n.userID = u.id))).map fun n =>
      ⟨u, e, n⟩

/-- The comparisons that occur in the where fragments. -/
inductive Atom where
  | emailLike (pattern : String)
  | usernameLike (pattern : String)
  | userIdIn (userIDs : List UUID)
  deriving DecidableEq, Repr

/-- Value of a comparison on a joined row, in SQL's three-valued logic: a comparison with
NULL is NULL (`none`). -/
def Atom.eval (db : Database) (r : JoinedRow) : Atom → Option Bool
  | .emailLike pattern => r.email.map (fun e => like db e.address pattern)
  | .usernameLike pattern => r.username.map (fun n => like db n.username pattern)
  | .userIdIn userIDs => some (decide (r.user.id ∈ userIDs))

/-- Three-valued `AND`. -/
def and3 : Option Bool → Option Bool → Option Bool
  | some false, _ => some false
  | _, some false => some false
  | some true, some true => some true
  | _, _ => none

/-- Three-valued `OR`. -/
def or3 : Option Bool → Option Bool → Option Bool
  | some true, _ => some true
  | _, some true => some true
  | some false, some false => some false
  | _, _ => none

/-- An SQL condition written without parentheses, the way the database parses it: `AND`
binds tighter than `OR`, so the condition is a disjunction of conjunctions of
comparisons. -/
abbrev Fragment := List (List Atom)

/-- Value of a conjunction of comparisons on a joined row. -/
def evalConj (db : Database) (r : JoinedRow) (conj : List Atom) : Option Bool :=
  conj.foldr (fun a acc => and3 (a.eval db r) acc) (some true)

/-- Value of a condition on a joined row. -/
def Fragment.eval (db : Database) (r : JoinedRow) (f : Fragment) : Option Bool :=
  f.foldr (fun conj acc => or3 (evalConj db r conj) acc) (some false)

/-- The text `f AND g` as the database parses it: the `AND` joins the last conjunction of
`f` with the first conjunction of `g`. -/
def joinAnd : Fragment → Fragment → Fragment
  | [], g => g
  | [conj], [] => [conj]
  | [conj], first :: rest => (conj ++ first) :: rest
  | conj :: f, g => conj :: joinAnd f g

/-- The part of a `pop.Query` that `addQueryParamsToSqlQuery` works on: the where fragments,
in the order they were added. -/
structure Query where
  whereClauses : List Fragment
  deriving DecidableEq, Repr

/-- A query without conditions, `p.db.Q()`. -/
def Query.Q : Query := ⟨[]⟩

/-- The builder call `query.Where(fragment, args...)`: it appends the fragment to the where
clauses of the query. -/
def Query.Where (query : Query) (fragment : Fragment) : Query :=
  { query with whereClauses := query.whereClauses ++ [fragment] }

/-- The `WHERE` condition `pop` generates: the where fragments joined with `" AND "`, as they
were written (no parentheses are added); `none` when there is no fragment. -/
def Query.whereSQL (query : Query) : Option Fragment :=
  match query.whereClauses with
  | [] => none
  | f :: fs => some (fs.foldl joinAnd f)

/-- Whether a joined row passes the `WHERE` condition of the query: the condition is TRUE
(not FALSE, not NULL), or there is none. -/
def Query.keeps (db : Database) (query : Query) (r : JoinedRow) : Bool :=
  match query.whereSQL with
  | none => true
  | some f => f.eval db r = some true

/-- The function `userPersister.addQueryParamsToSqlQuery`. -/
def addQueryParamsToSqlQuery (query : Query) (userIDs : List UUID) (email username : String) :
    Query :=
  let query :=
    if email ≠ "" ∧ username ≠ "" then
      query.Where [[.emailLike ("%" ++ email ++ "%")], [.usernameLike ("%" ++ username ++ "%")]]
    else if email ≠ "" then
      query.Where [[.emailLike ("%" ++ email ++ "%")]]
    else if username ≠ "" then
      query.Where [[.usernameLike ("%" ++ username ++ "%")]]
    else
      query
  if userIDs.length > 0 then
    query.Where [[.userIdIn userIDs]]
  else
    query

/-- The rows of one group of `GROUP BY users.id`: the joined rows of the user row `u` that
pass the `WHERE` condition (`users.id` is the primary key of `users`). -/
def groupOf (db : Database) (s : Store) (query : Query) (u : UserRow) : List JoinedRow :=
  (joinedRowsOf s u).filter (query.keeps db)

/-- The condition `HAVING count(emails.id) > 0 OR count(usernames.id) > 0` on a group;
`count` counts the rows where the column is not NULL. -/
def having (group : List JoinedRow) : Bool :=
  (group.filter (fun r => r.email.isSome)).length > 0 ∨
    (group.filter (fun r => r.username.isSome)).length > 0

/-- The user rows selected by the query: one per non-empty group that passes `HAVING`, in
table order. -/
def selectedUsers (db : Database) (s : Store) (query : Query) : List UserRow :=
  s.users.filter (fun u => !(groupOf db s query u).isEmpty && having (groupOf db s query u))

/-- Whether row `a` comes before row `b` under `ORDER BY users.created_at <sortDirection>`,
read by the database as ascending or descending. -/
def comesBefore (db : Database) (sortDirection : String) (descending : Bool)
    (a b : UserRow) : Bool :=
  if a.createdAt = b.createdAt then db.tieBreak sortDirection a b
  else if descending then decide (b.createdAt < a.createdAt)
  else decide (a.createdAt < b.createdAt)

/-- The clause `ORDER BY users.created_at <sortDirection>`, the text of `sortDirection`
being whatever the caller passed: the rows sorted by creation time in the direction the
database reads from the text, or the error it refuses the text with. -/
def orderBy (db : Database) (sortDirection : String) (users : List UserRow) :
    Except Error (List UserRow) :=
  match db.direction sortDirection with
  | .error err => .error err
  | .ok descending =>
    .ok (users.insertionSort (fun a b => comesBefore db sortDirection descending a b = true))

/-- A Go `int` (64 bits): the value an arithmetic result wraps to. -/
def wrapInt (x : Int) : Int :=
  (x + 9223372036854775808) % 18446744073709551616 - 9223372036854775808

/-- The builder call `Paginate(page, perPage)` and the clauses it generates: a page below 1
is page 1, a page size below 1 is 20, the offset `(page - 1) * perPage` is computed in a Go
`int` and wraps; the page is cut out with `LIMIT perPage OFFSET offset`. -/
def paginate {α : Type} (db : Database) (page perPage : Int) (rows : List α) :
    Except Error (List α) :=
  let page := if page < 1 then 1 else page
  let perPage := if perPage < 1 then 20 else perPage
  let offset := wrapInt ((page - 1) * perPage)
  let skipped : Except Error Nat :=
    if 0 ≤ offset then .ok offset.toNat else db.negativeOffset offset
  match skipped with
  | .error err => .error err
  | .ok n => .ok ((rows.drop n).take perPage.toNat)

/-- The tail of the statement of `List`, run by the database on the selected user rows:
`ORDER BY`, then `LIMIT` and `OFFSET`. -/
def fetchPage (db : Database) (sortDirection : String) (page perPage : Int)
    (selected : List UserRow) : Except Error (List UserRow) :=
  match db.fails with
  | some err => .error err
  | none =>
    match orderBy db sortDirection selected with
    | .error err => .error err
    | .ok sorted => paginate db page perPage sorted

/-- The eager preload of `List`: the emails of the user (and the primary email among
them), the webauthn credentials and the username. -/
def hydrate (s : Store) (u : UserRow) : User :=
  { id := u.id
    createdAt := u.createdAt
    emails := s.emails.filter (fun e => e.userID = some u.id)
    primaryEmail := s.primaryEmails.find? (fun p =>
      (s.emails.filter (fun e => e.userID = some u.id)).any (fun e => e.id = p.emailID))
    webauthnCredentials := s.webauthnCredentials.filter (fun w => w.userID = u.id)
    username := s.usernames.find? (fun n => n.userID = u.id) }

/-- The error `sql.ErrNoRows`. -/
def ErrNoRows : Error := .new "sql: no rows in result set"

/-- The function `errors.Is(err, target)`: `target` is `err` or one of the errors it
wraps. -/
def Error.Is : Error → Error → Bool
  | .new msg, target => decide (Error.new msg = target)
  | .wrap msg cause, target => decide (Error.wrap msg cause = target) || cause.Is target

/-- The function `userPersister.Count`, run on store `s` by the database `db`: the number
of groups the query selects. -/
def userPersister.Count (db : Database) (s : Store) (userIDs : List UUID)
    (email username : String) : Except Error Nat :=
  let query := addQueryParamsToSqlQuery Query.Q userIDs email username
  match db.fails with
  | some err => .error (.wrap "failed to get user count" err)
  | none => .ok (selectedUsers db s query).length

/-- A list of user ids, `[]uuid.UUID`. -/
abbrev UUIDs := List UUID

/-- A list of hydrated users, `[]models.User`. -/
abbrev Users := List User

/-- Lines 157-164 of `List`: what it returns for the outcome of the statement. -/
def listResult (s : Store) (fetched : Except Error (List UserRow)) : Except Error Users :=
  match fetched with
  | .error err =>
    if err.Is ErrNoRows then .ok [] else .error (.wrap "failed to fetch users" err)
  | .ok rows => .ok (rows.map (hydrate s))

/-- The function `userPersister.List`, run on store `s` by the database `db`. -/
def userPersister.List (db : Database) (s : Store) (page perPage : Int)
    (userIDs : UUIDs) (email username sortDirection : String) : Except Error Users :=
  let query := addQueryParamsToSqlQuery Query.Q userIDs email username
  listResult s (fetchPage db sortDirection page perPage (selectedUsers db s query))

/-- The condition built by `addQueryParamsToSqlQuery` selects the user row `u`: one of the
joined rows of `u` passes it. -/
def selects (db : Database) (s : Store) (userIDs : List UUID) (email username : String)
    (u : UserRow) : Prop :=
  ∃ r ∈ joinedRowsOf s u,
    (addQueryParamsToSqlQuery Query.Q userIDs email username).keeps db r = true

/-- The string `sub` occurs in the string `text`, characters being compared the way the
`LIKE` of the database compares them (after folding). -/
def contains (db : Database) (text sub : String) : Prop :=
  sub.data.map db.fold <:+: text.data.map db.fold

/-- The string has none of the characters that `LIKE` patterns treat specially on the
database: `%`, `_` and the escape character. -/
def noWildcard (db : Database) (sub : String) : Prop :=
  ∀ ch ∈ sub.data, ch ≠ '%' ∧ ch ≠ '_' ∧ some ch ≠ db.escape

/-- The user `u` owns an email whose address contains `sub`. -/
def ownsEmailContaining (db : Database) (s : Store) (u : UserRow) (sub : String) : Prop :=
  ∃ e ∈ s.emails, e.userID = some u.id ∧ contains db e.address sub

/-- The user `u` owns a username that contains `sub`. -/
def ownsUsernameContaining (db : Database) (s : Store) (u : UserRow) (sub : String) : Prop :=
  ∃ n ∈ s.usernames, n.userID = u.id ∧ contains db n.username sub

/-- The filter as the specification states it: with both substrings, the user matches
either; with one, the user matches that one; with none, every user matches; and a
non-empty id set restricts the users to its members. -/
def specFilter (db : Database) (s : Store) (userIDs : List UUID) (email username : String)
    (u : UserRow) : Prop :=
  (if email ≠ "" ∧ username ≠ "" then
      ownsEmailContaining db s u email ∨ ownsUsernameContaining db s u username
    else if email ≠ "" then ownsEmailContaining db s u email
    else if username ≠ "" then ownsUsernameContaining db s u username
    else True) ∧
  (userIDs ≠ [] → u.id ∈ userIDs)

/-- The user `u` owns at least one email or username row. -/
def complete (s : Store) (u : UserRow) : Prop :=
  (∃ e ∈ s.emails, e.userID = some u.id) ∨ ∃ n ∈ s.usernames, n.userID = u.id

instance (s : Store) (u : UserRow) : Decidable (complete s u) := by
  unfold complete; infer_instance

instance (db : Database) (s : Store) (userIDs : List UUID) (email username : String)
    (u : UserRow) : Decidable (selects db s userIDs email username u) := by
  unfold selects; infer_instance

instance (db : Database) (text sub : String) : Decidable (contains db text sub) := by
  unfold contains; infer_instance

instance (db : Database) (s : Store) (u : UserRow) (sub : String) :
    Decidable (ownsEmailContaining db s u sub) := by
  unfold ownsEmailContaining; infer_instance

instance (db : Database) (s : Store) (u : UserRow) (sub : String) :
    Decidable (ownsUsernameContaining db s u sub) := by
  unfold ownsUsernameContaining; infer_instance

instance (db : Database) (s : Store) (userIDs : List UUID) (email username : String)
    (u : UserRow) : Decidable (specFilter db s userIDs email username u) := by
  unfold specFilter; infer_instance

instance (db : Database) (sub : String) : Decidable (noWildcard db sub) := by
  unfold noWildcard; infer_instance

/-- A store for the listing examples: user 7 owns "a@x.com", user 8 owns "b@y.org" and
the username "bob", user 9 owns no email and no username, but a credential, an OTP secret
and metadata. -/
def exStoreL : Store :=
  ⟨[⟨7, 0⟩, ⟨8, 1⟩, ⟨9, 2⟩],
   [⟨1, some 7, "a@x.com", true⟩, ⟨2, some 8, "b@y.org", true⟩],
   [⟨10, 1, 7⟩],
   [⟨20, 8, "bob"⟩],
   [⟨30, 9, false⟩], [9], [9]⟩

/-- A case-sensitive database with the backslash as escape character, which reads the sort
direction in any letter case, orders rows of equal creation time by id and refuses a
negative offset. -/
def exDatabase : Database :=
  { fails := none
    fold := id
    escape := some '\\'
    direction := fun text =>
      if text = "asc" ∨ text = "ASC" ∨ text = "Asc" ∨ text = "" then .ok false
      else if text = "desc" ∨ text = "DESC" ∨ text = "Desc" then .ok true
      else .error (.new "syntax error")
    tieBreak := fun _ a b => decide (a.id ≤ b.id)
    negativeOffset := fun _ => .error (.new "OFFSET must not be negative") }

/-- The same database with a collation that ignores the case of the letters `A` and `X`
(enough for the examples). -/
def exDatabaseNoCase : Database :=
  { exDatabase with
    fold := fun ch => if ch = 'A' then 'a' else if ch = 'X' then 'x' else ch }

/-! ## Lemmas on the collaborators -/

theorem find?_address_none {l : List Email} {a : String} (h : ∀ e ∈ l, e.address ≠ a) :
    l.find? (fun e => decide (e.address = a)) = none := by
  rw [List.find?_eq_none]
  intro e he
  simpa using h e he

theorem FindByAddress_ok (d : Deps) (w : World) (a : String)
    (h : d.fails (.findByAddress a) = none) :
    EmailPersister.FindByAddress d w a =
      (.ok (w.store.emails.find? (fun e => decide (e.address = a))), w.log (.findByAddress a)) := by
  simp [EmailPersister.FindByAddress, h]

theorem FindByUserId_ok (d : Deps) (w : World) (u : UUID)
    (h : d.fails (.findByUserId u) = none) :
    EmailPersister.FindByUserId d w u =
      (.ok (w.store.emails.filter (fun e => decide (e.userID = some u))),
        w.log (.findByUserId u)) := by
  simp [EmailPersister.FindByUserId, h]

theorem EmailCreate_ok (d : Deps) (w : World) (e : Email)
    (h : d.fails (.createEmail e) = none)
    (hid : e.id ∉ w.store.emails.map (·.id))
    (haddr : e.address ∉ w.store.emails.map (·.address)) :
    EmailPersister.Create d w e =
      (none, { w.log (.createEmail e) with
        store := { w.store with emails := w.store.emails ++ [e] } }) := by
  unfold EmailPersister.Create
  simp only [h]
  rw [if_neg (by tauto)]

theorem PrimaryEmailCreate_ok (d : Deps) (w : World) (p : PrimaryEmail)
    (h : d.fails (.createPrimaryEmail p) = none)
    (hid : p.id ∉ w.store.primaryEmails.map (·.id)) :
    PrimaryEmailPersister.Create d w p =
      (none, { w.log (.createPrimaryEmail p) with
        store := { w.store with primaryEmails := w.store.primaryEmails ++ [p] } }) := by
  unfold PrimaryEmailPersister.Create
  simp only [h]
  rw [if_neg hid]

theorem EmailUpdate_ok (d : Deps) (w : World) (e : Email)
    (h : d.fails (.updateEmail e) = none)
    (haddr : ¬ ∃ x ∈ w.store.emails, x.id ≠ e.id ∧ x.address = e.address) :
    EmailPersister.Update d w e =
      (none, { w.log (.updateEmail e) with
        store := { w.store with
          emails := w.store.emails.map (fun x => if x.id = e.id then e else x) } }) := by
  unfold EmailPersister.Update
  simp only [h]
  rw [if_neg haddr]

/-- The create branch of the persist stage when nothing fails. -/
theorem persistStage_create (d : Deps) (w : World) (userId : UUID) (address : String)
    (hfail : ∀ e, d.fails e = none)
    (hfreshE : d.newEmailID ∉ w.store.emails.map (·.id))
    (hfreshP : d.newPrimaryEmailID ∉ w.store.primaryEmails.map (·.id))
    (hno : ∀ e ∈ w.store.emails, e.address ≠ address) :
    persistStage d w userId address none =
      (.ok true,
        if ∀ e ∈ w.store.emails, e.userID ≠ some userId then
          { store := { w.store with
              emails := w.store.emails ++ [⟨d.newEmailID, some userId, address, true⟩]
              primaryEmails :=
                w.store.primaryEmails ++ [⟨d.newPrimaryEmailID, d.newEmailID, userId⟩] }
            sessionUser := (w.sessionUser.map (fun u =>
                { u with emails := u.emails ++ [(⟨d.newEmailID, some userId, address, true⟩ : Email)] })).map
              (·.SetPrimaryEmail ⟨d.newPrimaryEmailID, d.newEmailID, userId⟩)
            trace := w.trace ++ [.createEmail ⟨d.newEmailID, some userId, address, true⟩,
              .findByUserId userId,
              .createPrimaryEmail ⟨d.newPrimaryEmailID, d.newEmailID, userId⟩] }
        else
          { store := { w.store with
              emails := w.store.emails ++ [⟨d.newEmailID, some userId, address, true⟩] }
            sessionUser := w.sessionUser.map (fun u =>
                { u with emails := u.emails ++ [(⟨d.newEmailID, some userId, address, true⟩ : Email)] })
            trace := w.trace ++ [.createEmail ⟨d.newEmailID, some userId, address, true⟩,
              .findByUserId userId] }) := by
  have hnoaddr : address ∉ w.store.emails.map (·.address) := by
    intro hmem
    obtain ⟨e, he1, he2⟩ := List.mem_map.mp hmem
    exact hno e he1 he2
  unfold persistStage
  simp only [NewEmail]
  rw [EmailCreate_ok d w _ (hfail _) hfreshE hnoaddr]
  simp only
  rw [FindByUserId_ok d _ _ (hfail _)]
  simp only [World.log, List.filter_append, NewPrimaryEmail]
  by_cases hown : ∀ e ∈ w.store.emails, e.userID ≠ some userId
  · have hfilter : w.store.emails.filter (fun x => decide (x.userID = some userId)) = [] := by
      rw [List.filter_eq_nil_iff]; intro e hmem; simpa using hown e hmem
    rw [if_pos hown, hfilter]
    simp only [List.filter_cons, decide_True, if_true, List.filter_nil, List.nil_append,
      List.length_singleton, List.map_cons, List.map_nil, List.head?_cons, true_and]
    rw [PrimaryEmailCreate_ok d _ _ (hfail _) hfreshP]
    simp [World.log]
  · have hfilter : w.store.emails.filter (fun x => decide (x.userID = some userId)) ≠ [] := by
      rw [Ne, List.filter_eq_nil_iff]; push_neg at hown ⊢
      obtain ⟨e, hmem, h⟩ := hown; exact ⟨e, hmem, by simpa using h⟩
    have hlen : ¬ ((w.store.emails.filter (fun x => decide (x.userID = some userId))) ++
        [(⟨d.newEmailID, some userId, address, true⟩ : Email)]).length = 1 := by
      have := List.length_pos.mpr hfilter
      simp only [List.length_append, List.length_singleton]
      omega
    rw [if_neg hown]
    simp only [List.filter_cons, decide_True, if_true, List.filter_nil]
    rw [if_neg (fun h => hlen h.1)]
    simp

/-- Once the stash holds a verified flag, an email and a parseable user id, the hook is the
lookup followed by the persist stage and the audit stage. -/
theorem Execute_parsed (d : Deps) (c : HookExecutionContext) (s : Store) (userId : UUID)
    (hv : (c.Stash StashPathEmailVerified).Bool = true)
    (he : (c.Stash StashPathEmail).Exists = true)
    (hu : (c.Stash StashPathUserID).Exists = true)
    (hp : d.FromString (c.Stash StashPathUserID).String = .ok userId) :
    Execute d c s =
      match EmailPersister.FindByAddress d ⟨s, c.sessionUser, []⟩ (c.Stash StashPathEmail).String with
      | (.error err, w1) => ⟨some (.wrap "could not fetch email" err), w1⟩
      | (.ok emailAddressToVerifyModel, w1) =>
        match persistStage d w1 userId (c.Stash StashPathEmail).String
            emailAddressToVerifyModel with
        | (.error err, w2) => ⟨some err, w2⟩
        | (.ok emailCreated, w2) =>
          auditStage d c w2 userId (c.Stash StashPathEmail).String emailCreated := by
  simp only [Execute, hv, he, hu, hp, Bool.not_true, Bool.false_eq_true, if_false]

/-- The audit stage when no audit call fails. -/
theorem auditStage_ok (d : Deps) (c : HookExecutionContext) (w : World) (userId : UUID)
    (address : String) (emailCreated : Bool)
    (hfail : ∀ t, d.fails (.audit t userId address c.GetFlowID) = none) :
    auditStage d c w userId address emailCreated =
      ⟨none, { w with trace := w.trace ++
        (if (c.Stash StashPathLoginMethod).String ≠ "passcode" then
          [.audit AuditLogEmailVerified userId address c.GetFlowID] else []) ++
        (if emailCreated then
          [.audit AuditLogEmailCreated userId address c.GetFlowID,
            .notify UserEmailCreate userId] else []) }⟩ := by
  unfold auditStage
  by_cases hl : (c.Stash StashPathLoginMethod).String = "passcode" <;>
    cases emailCreated <;>
    simp [hl, AuditLogger.CreateWithConnection, hfail, World.log, NotifyUserChange]

theorem find?_address_some {l : List Email} {found : Email}
    (hn : (l.map (·.address)).Nodup) (hf : found ∈ l) :
    l.find? (fun e => decide (e.address = found.address)) = some found := by
  induction l with
  | nil => simp at hf
  | cons x xs ih =>
    simp only [List.map_cons, List.nodup_cons] at hn
    rcases List.mem_cons.mp hf with rfl | hmem
    · simp
    · have hne : x.address ≠ found.address := by
        intro heq
        exact hn.1 (heq ▸ List.mem_map_of_mem _ hmem)
      simp [List.find?_cons, hne, ih hn.2 hmem]

/-- Rows of a table with a unique column are equal when they agree on it. -/
theorem eq_of_nodup_map {α β : Type} (f : α → β) {l : List α} (hn : (l.map f).Nodup)
    {x y : α} (hx : x ∈ l) (hy : y ∈ l) (h : f x = f y) : x = y :=
  List.inj_on_of_nodup_map hn hx hy h

/-- An update of a row found in a valid store is not refused by the unique index. -/
theorem update_not_refused {s : Store} (hs : s.Valid) {found : Email} (hf : found ∈ s.emails) :
    ¬ ∃ x ∈ s.emails, x.id ≠ found.id ∧ x.address = found.address := by
  rintro ⟨x, hx, hid, haddr⟩
  exact hid (congrArg Email.id (eq_of_nodup_map (·.address) hs.2 hx hf haddr))

/-- In a valid store, rewriting the row with the id of `found` rewrites `found` only. -/
theorem update_map_eq {s : Store} (hs : s.Valid) {found : Email} (hf : found ∈ s.emails)
    (e : Email) :
    s.emails.map (fun x => if x.id = found.id then e else x) =
      s.emails.map (fun x => if x = found then e else x) := by
  apply List.map_congr_left
  intro x hx
  by_cases h : x = found
  · simp [h]
  · have : x.id ≠ found.id := fun hid => h (eq_of_nodup_map (·.id) hs.1 hx hf hid)
    simp [h, this]

/-- The update branch of the persist stage when the update does not fail. -/
theorem persistStage_update (d : Deps) (w : World) (userId : UUID) (address : String)
    (found : Email) (hs : w.store.Valid) (hf : found ∈ w.store.emails)
    (hver : found.verified = false)
    (hfail : d.fails (.updateEmail { found with verified := true }) = none) :
    persistStage d w userId address (some found) =
      (.ok false,
        { store := { w.store with
            emails := w.store.emails.map
              (fun x => if x = found then { x with verified := true } else x) }
          sessionUser := w.sessionUser.map (·.UpdateEmail { found with verified := true })
          trace := w.trace ++ [.updateEmail { found with verified := true }] }) := by
  unfold persistStage
  simp only [hver, Bool.not_false, if_true]
  have hnr := update_not_refused hs hf
  rw [EmailUpdate_ok d w _ hfail hnr]
  simp only [World.log]
  have := update_map_eq hs hf { found with verified := true }
  simp only at this
  rw [this]
  congr 3
  apply List.map_congr_left
  intro x _
  by_cases h : x = found <;> simp [h]

/-- The already-verified branch of the persist stage: nothing happens. -/
theorem persistStage_verified (d : Deps) (w : World) (userId : UUID) (address : String)
    (found : Email) (hver : found.verified = true) :
    persistStage d w userId address (some found) = (.ok false, w) := by
  simp [persistStage, hver]

theorem FindByAddress_cases (d : Deps) (w : World) (a : String) :
    (∃ err, d.fails (.findByAddress a) = some err ∧
      EmailPersister.FindByAddress d w a = (.error err, w.log (.findByAddress a))) ∨
    (d.fails (.findByAddress a) = none ∧ EmailPersister.FindByAddress d w a =
      (.ok (w.store.emails.find? (fun e => decide (e.address = a))), w.log (.findByAddress a))) := by
  unfold EmailPersister.FindByAddress
  cases h : d.fails (.findByAddress a) <;> simp

theorem FindByUserId_cases (d : Deps) (w : World) (u : UUID) :
    (∃ err, EmailPersister.FindByUserId d w u = (.error err, w.log (.findByUserId u))) ∨
    (EmailPersister.FindByUserId d w u =
      (.ok (w.store.emails.filter (fun e => decide (e.userID = some u))),
        w.log (.findByUserId u))) := by
  unfold EmailPersister.FindByUserId
  cases h : d.fails (.findByUserId u) <;> simp

theorem EmailCreate_cases (d : Deps) (w : World) (e : Email) :
    (∃ err, EmailPersister.Create d w e = (some err, w.log (.createEmail e))) ∨
    (e.id ∉ w.store.emails.map (·.id) ∧ e.address ∉ w.store.emails.map (·.address) ∧
      EmailPersister.Create d w e = (none, { w.log (.createEmail e) with
        store := { w.store with emails := w.store.emails ++ [e] } })) := by
  unfold EmailPersister.Create
  cases h : d.fails (.createEmail e)
  · by_cases hc : e.id ∈ w.store.emails.map (·.id) ∨ e.address ∈ w.store.emails.map (·.address)
    · left; exact ⟨uniqueViolation, by simp only [if_pos hc]⟩
    · right
      refine ⟨fun h1 => hc (Or.inl h1), fun h2 => hc (Or.inr h2), by simp only [if_neg hc]⟩
  · left; exact ⟨_, rfl⟩

theorem PrimaryEmailCreate_cases (d : Deps) (w : World) (p : PrimaryEmail) :
    (∃ err, PrimaryEmailPersister.Create d w p = (some err, w.log (.createPrimaryEmail p))) ∨
    (PrimaryEmailPersister.Create d w p = (none, { w.log (.createPrimaryEmail p) with
        store := { w.store with primaryEmails := w.store.primaryEmails ++ [p] } })) := by
  unfold PrimaryEmailPersister.Create
  cases h : d.fails (.createPrimaryEmail p)
  · by_cases hc : p.id ∈ w.store.primaryEmails.map (·.id)
    · left; exact ⟨uniqueViolation, by simp only [if_pos hc]⟩
    · right; simp only [if_neg hc]
  · left; exact ⟨_, rfl⟩

theorem EmailUpdate_cases (d : Deps) (w : World) (e : Email) :
    (∃ err, EmailPersister.Update d w e = (some err, w.log (.updateEmail e))) ∨
    (EmailPersister.Update d w e = (none, { w.log (.updateEmail e) with
        store := { w.store with
          emails := w.store.emails.map (fun x => if x.id = e.id then e else x) } })) := by
  unfold EmailPersister.Update
  cases h : d.fails (.updateEmail e)
  · by_cases hc : ∃ x ∈ w.store.emails, x.id ≠ e.id ∧ x.address = e.address
    · left; exact ⟨uniqueViolation, by simp only [if_pos hc]⟩
    · right; simp only [if_neg hc]
  · left; exact ⟨_, rfl⟩

/-- The persist stage only adds store calls to the trace. -/
theorem persistStage_trace (d : Deps) (w : World) (userId : UUID) (address : String)
    (m : Option Email) :
    ∀ e ∈ (persistStage d w userId address m).2.trace, e ∈ w.trace ∨ e.isStore = true := by
  unfold persistStage
  cases m with
  | none =>
    simp only
    rcases EmailCreate_cases d w { NewEmail d userId address with verified := true } with
      ⟨err, h⟩ | ⟨-, -, h⟩
    · rw [h]
      intro e he
      simp only [World.log, List.mem_append, List.mem_cons, List.mem_singleton,
        List.not_mem_nil, or_false] at he
      casesm* _ ∨ _ <;> first | (left; assumption) | (subst_vars; right; rfl)
    · rw [h]; simp only
      rcases FindByUserId_cases d _ userId with ⟨err, h2⟩ | h2
      · rw [h2]
        intro e he
        simp only [World.log, List.mem_append, List.mem_cons, List.mem_singleton,
          List.not_mem_nil, or_false] at he
        casesm* _ ∨ _ <;> first | (left; assumption) | (subst_vars; right; rfl)
      · rw [h2]; simp only
        split_ifs with hc
        · rcases PrimaryEmailCreate_cases d _ (NewPrimaryEmail d
            ({ NewEmail d userId address with verified := true } : Email).id userId) with
            ⟨err, h3⟩ | h3
          · rw [h3]
            intro e he
            simp only [World.log, List.mem_append, List.mem_cons, List.mem_singleton,
              List.not_mem_nil, or_false] at he
            casesm* _ ∨ _ <;> first | (left; assumption) | (subst_vars; right; rfl)
          · rw [h3]
            intro e he
            simp only [World.log, List.mem_append, List.mem_cons, List.mem_singleton,
              List.not_mem_nil, or_false] at he
            casesm* _ ∨ _ <;> first | (left; assumption) | (subst_vars; right; rfl)
        · intro e he
          simp only [World.log, List.mem_append, List.mem_cons, List.mem_singleton,
            List.not_mem_nil, or_false] at he
          casesm* _ ∨ _ <;> first | (left; assumption) | (subst_vars; right; rfl)
  | some found =>
    simp only
    split_ifs with hc
    · rcases EmailUpdate_cases d w { found with verified := true } with ⟨err, h⟩ | h
      · rw [h]
        intro e he
        simp only [World.log, List.mem_append, List.mem_cons, List.mem_singleton,
          List.not_mem_nil, or_false] at he
        casesm* _ ∨ _ <;> first | (left; assumption) | (subst_vars; right; rfl)
      · rw [h]
        intro e he
        simp only [World.log, List.mem_append, List.mem_cons, List.mem_singleton,
          List.not_mem_nil, or_false] at he
        casesm* _ ∨ _ <;> first | (left; assumption) | (subst_vars; right; rfl)
    · exact fun e he => Or.inl he

theorem store_not_audit {e : Effect} (h : e.isStore = true) :
    e.isAudit = false ∧ e.isNotify = false := by
  cases e <;> simp_all [Effect.isStore, Effect.isAudit, Effect.isNotify]

/-- The audit stage leaves the store and the live user view alone. -/
theorem auditStage_store (d : Deps) (c : HookExecutionContext) (w : World) (userId : UUID)
    (address : String) (emailCreated : Bool) :
    (auditStage d c w userId address emailCreated).world.store = w.store ∧
      (auditStage d c w userId address emailCreated).world.sessionUser = w.sessionUser := by
  unfold auditStage AuditLogger.CreateWithConnection NotifyUserChange
  by_cases hl : (c.Stash StashPathLoginMethod).String = "passcode" <;>
    cases emailCreated <;>
    cases h1 : d.fails (.audit AuditLogEmailVerified userId address c.GetFlowID) <;>
    cases h2 : d.fails (.audit AuditLogEmailCreated userId address c.GetFlowID) <;>
    simp [hl, h1, h2, World.log]

/-- In the audit stage, an audit call that fails makes the hook return its error wrapped,
before any notification. -/
theorem auditStage_failure (d : Deps) (c : HookExecutionContext) (w : World) (userId : UUID)
    (address : String) (emailCreated : Bool) (a : Effect) (cause : Error)
    (hw : ∀ e ∈ w.trace, e.isStore = true)
    (ha : a ∈ (auditStage d c w userId address emailCreated).world.trace)
    (hk : a.isAudit = true) (hf : d.fails a = some cause) :
    (auditStage d c w userId address emailCreated).err =
        some (.wrap "could not create audit log" cause) ∧
      ∀ e ∈ (auditStage d c w userId address emailCreated).world.trace, e.isNotify = false := by
  have hnot : a ∉ w.trace := fun hmem => by
    have := (store_not_audit (hw a hmem)).1
    simp [hk] at this
  have hwn : ∀ e ∈ w.trace, e.isNotify = false := fun e he => (store_not_audit (hw e he)).2
  revert ha
  unfold auditStage AuditLogger.CreateWithConnection NotifyUserChange
  by_cases hl : (c.Stash StashPathLoginMethod).String = "passcode" <;>
    cases emailCreated <;>
    cases h1 : d.fails (.audit AuditLogEmailVerified userId address c.GetFlowID) <;>
    cases h2 : d.fails (.audit AuditLogEmailCreated userId address c.GetFlowID) <;>
    simp only [hl, h1, h2, World.log, ne_eq, not_true_eq_false, not_false_eq_true, if_true,
      if_false, List.mem_append, List.mem_singleton, Bool.false_eq_true] <;>
    intro ha
  all_goals try casesm* _ ∨ _
  all_goals first
    | exact absurd ‹a ∈ w.trace› hnot
    | (subst a
       first
         | (simp [Effect.isAudit] at hk; done)
         | (rw [hf] at h1; simp at h1; done)
         | (rw [hf] at h2; simp at h2; done)
         | (rw [hf] at h1; cases h1; refine ⟨rfl, ?_⟩; intro e he
            casesm* _ ∨ _ <;> first | exact hwn e ‹_› | (subst e; rfl))
         | (rw [hf] at h2; cases h2; refine ⟨rfl, ?_⟩; intro e he
            casesm* _ ∨ _ <;> first | exact hwn e ‹_› | (subst e; rfl)))

/-- The three ways a run of the hook can go: it stops before any call; the lookup fails; or
the lookup succeeds and the persist stage and the audit stage follow. -/
theorem Execute_shape (d : Deps) (c : HookExecutionContext) (s : Store) :
    ((Execute d c s).world = ⟨s, c.sessionUser, []⟩) ∨
    (∃ err, Execute d c s = ⟨some (.wrap "could not fetch email" err),
        ⟨s, c.sessionUser, [.findByAddress (c.Stash StashPathEmail).String]⟩⟩) ∨
    (∃ userId, Execute d c s =
      match persistStage d ⟨s, c.sessionUser, [.findByAddress (c.Stash StashPathEmail).String]⟩
          userId (c.Stash StashPathEmail).String
          (s.emails.find? (fun e => decide (e.address = (c.Stash StashPathEmail).String))) with
      | (.error err, w2) => ⟨some err, w2⟩
      | (.ok emailCreated, w2) =>
        auditStage d c w2 userId (c.Stash StashPathEmail).String emailCreated) := by
  by_cases hv : (c.Stash StashPathEmailVerified).Bool = true
  swap
  · left; simp [Execute, hv]
  by_cases he : (c.Stash StashPathEmail).Exists = true
  swap
  · left; simp [Execute, hv, he]
  by_cases hu : (c.Stash StashPathUserID).Exists = true
  swap
  · left; simp [Execute, hv, he, hu]
  cases hp : d.FromString (c.Stash StashPathUserID).String with
  | error err => left; simp [Execute, hv, he, hu, hp]
  | ok userId =>
    right
    rw [Execute_parsed d c s userId hv he hu hp]
    rcases FindByAddress_cases d ⟨s, c.sessionUser, []⟩ (c.Stash StashPathEmail).String with
      ⟨err, -, h⟩ | ⟨-, h⟩
    · left; exact ⟨err, by rw [h]; rfl⟩
    · right; exact ⟨userId, by rw [h]; rfl⟩

theorem valid_append_email {s : Store} (hs : s.Valid) {e : Email}
    (hid : e.id ∉ s.emails.map (·.id)) (haddr : e.address ∉ s.emails.map (·.address)) :
    Store.Valid { s with emails := s.emails ++ [e] } := by
  obtain ⟨h1, h2⟩ := hs
  refine ⟨?_, ?_⟩
  · simp only [List.map_append, List.map_cons, List.map_nil]
    rw [List.nodup_append]
    refine ⟨h1, List.nodup_singleton _, ?_⟩
    intro a ha hb
    simp only [List.mem_singleton] at hb
    exact hid (hb ▸ ha)
  · simp only [List.map_append, List.map_cons, List.map_nil]
    rw [List.nodup_append]
    refine ⟨h2, List.nodup_singleton _, ?_⟩
    intro a ha hb
    simp only [List.mem_singleton] at hb
    exact haddr (hb ▸ ha)

theorem valid_update {s : Store} (hs : s.Valid) {found : Email} (hf : found ∈ s.emails)
    (v : Bool) :
    Store.Valid { s with
      emails := s.emails.map (fun x => if x.id = found.id then { found with verified := v } else x) } := by
  have hid : (s.emails.map (fun x => if x.id = found.id then { found with verified := v } else x)).map
      (·.id) = s.emails.map (·.id) := by
    rw [List.map_map]
    apply List.map_congr_left
    intro x _
    by_cases h : x.id = found.id <;> simp [h]
  have haddr : (s.emails.map
      (fun x => if x.id = found.id then { found with verified := v } else x)).map
      (·.address) = s.emails.map (·.address) := by
    rw [List.map_map]
    apply List.map_congr_left
    intro x hx
    by_cases h : x.id = found.id
    · have := eq_of_nodup_map (·.id) hs.1 hx hf h
      simp [h, this]
    · simp [h]
  exact ⟨by rw [hid]; exact hs.1, by rw [haddr]; exact hs.2⟩

theorem valid_primaryEmails {s : Store} (hs : s.Valid) (l : List PrimaryEmail) :
    Store.Valid { s with primaryEmails := l } := hs

theorem invariant_append_email {s : Store} (hi : PrimaryEmailInvariant s) (e : Email) :
    PrimaryEmailInvariant { s with emails := s.emails ++ [e] } := by
  refine ⟨hi.1, ?_⟩
  intro p hp
  obtain ⟨x, hx, h⟩ := hi.2 p hp
  exact ⟨x, List.mem_append_left _ hx, h⟩

theorem invariant_append_primaryEmail {s : Store} (hi : PrimaryEmailInvariant s)
    (p : PrimaryEmail) {e : Email} (he : e ∈ s.emails) (hid : e.id = p.emailID)
    (hown : e.userID = some p.userID) (hver : e.verified = true)
    (hnone : ∀ q ∈ s.primaryEmails, q.userID ≠ p.userID) :
    PrimaryEmailInvariant { s with primaryEmails := s.primaryEmails ++ [p] } := by
  refine ⟨?_, ?_⟩
  · intro u
    simp only [List.filter_append, List.length_append]
    by_cases hu : p.userID = u
    · have : s.primaryEmails.filter (fun q => decide (q.userID = u)) = [] := by
        rw [List.filter_eq_nil_iff]
        intro q hq
        simpa [← hu] using hnone q hq
      simp [this, List.filter_cons, hu]
    · have := hi.1 u
      simp [List.filter_cons, hu, this]
  · intro q hq
    simp only [List.mem_append, List.mem_singleton] at hq
    rcases hq with hq | rfl
    · exact hi.2 q hq
    · exact ⟨e, he, hid, hown, hver⟩

theorem invariant_update {s : Store} (hs : s.Valid) (hi : PrimaryEmailInvariant s)
    {found : Email} (hf : found ∈ s.emails) :
    PrimaryEmailInvariant { s with
      emails := s.emails.map
        (fun x => if x.id = found.id then { found with verified := true } else x) } := by
  refine ⟨hi.1, ?_⟩
  intro p hp
  obtain ⟨x, hx, h1, h2, h3⟩ := hi.2 p hp
  by_cases h : x.id = found.id
  · have hxf := eq_of_nodup_map (·.id) hs.1 hx hf h
    subst hxf
    refine ⟨{ x with verified := true }, ?_, h1, h2, rfl⟩
    simp only [List.mem_map]
    exact ⟨x, hx, by simp⟩
  · refine ⟨x, ?_, h1, h2, h3⟩
    simp only [List.mem_map]
    exact ⟨x, hx, by simp [h]⟩

/-- The persist stage, started on what the lookup returns, keeps the key constraints and
the primary-email invariant. -/
theorem persistStage_invariant (d : Deps) (w : World) (userId : UUID) (address : String)
    (hs : w.store.Valid) (hi : PrimaryEmailInvariant w.store) :
    (persistStage d w userId address
        (w.store.emails.find? (fun e => decide (e.address = address)))).2.store.Valid ∧
      PrimaryEmailInvariant (persistStage d w userId address
        (w.store.emails.find? (fun e => decide (e.address = address)))).2.store := by
  unfold persistStage
  cases hm : w.store.emails.find? (fun e => decide (e.address = address)) with
  | none =>
    simp only
    rcases EmailCreate_cases d w { NewEmail d userId address with verified := true } with
      ⟨err, h⟩ | ⟨hid, haddr, h⟩
    · rw [h]; exact ⟨hs, hi⟩
    · rw [h]; simp only
      have hs1 := valid_append_email hs hid haddr
      have hi1 := invariant_append_email hi { NewEmail d userId address with verified := true }
      rcases FindByUserId_cases d _ userId with ⟨err, h2⟩ | h2
      · rw [h2]; exact ⟨hs1, hi1⟩
      · rw [h2]; simp only
        split_ifs with hc
        · rcases PrimaryEmailCreate_cases d _ (NewPrimaryEmail d
            ({ NewEmail d userId address with verified := true } : Email).id userId) with
            ⟨err, h3⟩ | h3
          · rw [h3]; exact ⟨hs1, hi1⟩
          · rw [h3]
            refine ⟨hs1, ?_⟩
            simp only [World.log]
            refine invariant_append_primaryEmail hi1 _
              (e := { NewEmail d userId address with verified := true }) (by simp) rfl rfl rfl ?_
            intro q hq hqu
            obtain ⟨x, hx, -, hxu, -⟩ := hi.2 q hq
            simp only [World.log, List.filter_append, List.length_append, NewEmail,
              List.filter_cons, decide_True, if_true, List.filter_nil, List.length_singleton]
              at hc
            have hlen : (w.store.emails.filter (fun e => decide (e.userID = some userId))).length
                = 0 := by omega
            have hnil := List.length_eq_zero.mp hlen
            rw [List.filter_eq_nil_iff] at hnil
            have := hnil x hx
            simp only [NewPrimaryEmail] at hqu
            simp [hxu, hqu] at this
        · exact ⟨hs1, hi1⟩
  | some found =>
    have hf : found ∈ w.store.emails := List.mem_of_find?_eq_some hm
    simp only
    split_ifs with hc
    · rcases EmailUpdate_cases d w { found with verified := true } with ⟨err, h⟩ | h
      · rw [h]; exact ⟨hs, hi⟩
      · rw [h]; exact ⟨valid_update hs hf true, @invariant_update w.store hs hi found hf⟩
    · exact ⟨hs, hi⟩

/-- A run of the hook keeps the key constraints and the primary-email invariant. -/
theorem Execute_valid_invariant (d : Deps) (c : HookExecutionContext) (s : Store)
    (hs : s.Valid) (hi : PrimaryEmailInvariant s) :
    (Execute d c s).world.store.Valid ∧ PrimaryEmailInvariant (Execute d c s).world.store := by
  rcases Execute_shape d c s with h | ⟨err, h⟩ | ⟨userId, h⟩
  · rw [h]; exact ⟨hs, hi⟩
  · rw [h]; exact ⟨hs, hi⟩
  · rw [h]
    have hp := persistStage_invariant d
      ⟨s, c.sessionUser, [.findByAddress (c.Stash StashPathEmail).String]⟩ userId
      (c.Stash StashPathEmail).String hs hi
    revert hp
    simp only
    generalize persistStage d _ userId _ _ = r
    obtain ⟨r, w2⟩ := r
    intro hp
    cases r with
    | error err => exact hp
    | ok created =>
      simp only
      rw [(auditStage_store d c w2 userId _ created).1]
      exact hp

theorem filter_address_eq {l : List Email} (hn : (l.map (·.address)).Nodup) {e : Email}
    (he : e ∈ l) : l.filter (fun x => decide (x.address = e.address)) = [e] := by
  induction l with
  | nil => simp at he
  | cons x xs ih =>
    simp only [List.map_cons, List.nodup_cons] at hn
    rcases List.mem_cons.mp he with rfl | hmem
    · have : xs.filter (fun x => decide (x.address = e.address)) = [] := by
        rw [List.filter_eq_nil_iff]
        intro y hy
        have : y.address ≠ e.address := fun h => hn.1 (h ▸ List.mem_map_of_mem _ hy)
        simpa using this
      simp [List.filter_cons, this]
    · have hne : x.address ≠ e.address := fun h => hn.1 (h ▸ List.mem_map_of_mem _ hmem)
      simp [List.filter_cons, hne, ih hn.2 hmem]

/-- A run on a store whose email with the pending address is already verified: the lookup,
then the "email verified" audit entry unless the login method is "passcode". -/
theorem Execute_on_verified_email (d : Deps) (c : HookExecutionContext) (s : Store)
    (found : Email) (userId : UUID)
    (hs : s.Valid) (hf : found ∈ s.emails) (hver : found.verified = true)
    (hv : (c.Stash StashPathEmailVerified).Bool = true)
    (he : (c.Stash StashPathEmail).Exists = true)
    (ha : (c.Stash StashPathEmail).String = found.address)
    (hu : (c.Stash StashPathUserID).Exists = true)
    (hp : d.FromString (c.Stash StashPathUserID).String = .ok userId)
    (hfail : ∀ e, d.fails e = none) :
    Execute d c s = ⟨none, ⟨s, c.sessionUser, [.findByAddress found.address] ++
      (if (c.Stash StashPathLoginMethod).String ≠ "passcode" then
        [.audit AuditLogEmailVerified userId found.address c.GetFlowID] else [])⟩⟩ := by
  rw [Execute_parsed d c s userId hv he hu hp, FindByAddress_ok d _ _ (hfail _), ha]
  simp only [World.log, find?_address_some hs.2 hf]
  rw [persistStage_verified d _ userId _ found hver]
  simp only
  rw [auditStage_ok d c _ userId _ false (fun _ => hfail _)]
  simp

/-- A first run in which nothing fails: it succeeds, keeps the key constraints, leaves a
verified email with the pending address, and makes one "email verified" audit entry unless
the login method is "passcode". -/
theorem Execute_first_run (d : Deps) (c : HookExecutionContext) (s : Store)
    (address : String) (userId : UUID)
    (hs : s.Valid)
    (hv : (c.Stash StashPathEmailVerified).Bool = true)
    (he : (c.Stash StashPathEmail).Exists = true)
    (ha : (c.Stash StashPathEmail).String = address)
    (hu : (c.Stash StashPathUserID).Exists = true)
    (hp : d.FromString (c.Stash StashPathUserID).String = .ok userId)
    (hfail : ∀ e, d.fails e = none)
    (hfreshE : d.newEmailID ∉ s.emails.map (·.id))
    (hfreshP : d.newPrimaryEmailID ∉ s.primaryEmails.map (·.id)) :
    (Execute d c s).err = none ∧ (Execute d c s).world.store.Valid ∧
    (∃ e ∈ (Execute d c s).world.store.emails, e.address = address ∧ e.verified = true) ∧
    (Execute d c s).world.trace.filter (Effect.isAuditOf AuditLogEmailVerified) =
      (if (c.Stash StashPathLoginMethod).String ≠ "passcode" then
        [.audit AuditLogEmailVerified userId address c.GetFlowID] else []) := by
  subst ha
  cases hm : s.emails.find? (fun e => decide (e.address = (c.Stash StashPathEmail).String)) with
  | none =>
    have hno : ∀ e ∈ s.emails, e.address ≠ (c.Stash StashPathEmail).String := by
      intro e hmem
      have := List.find?_eq_none.mp hm e hmem
      simpa using this
    have hnoaddr : (c.Stash StashPathEmail).String ∉ s.emails.map (·.address) := by
      intro hmem
      obtain ⟨e, he1, he2⟩ := List.mem_map.mp hmem
      exact hno e he1 he2
    have hs1 := valid_append_email hs
      (e := ⟨d.newEmailID, some userId, (c.Stash StashPathEmail).String, true⟩) hfreshE hnoaddr
    rw [Execute_parsed d c s userId hv he hu hp, FindByAddress_ok d _ _ (hfail _)]
    simp only [World.log, hm]
    rw [persistStage_create d _ userId _ hfail hfreshE hfreshP hno]
    simp only
    rw [auditStage_ok d c _ userId _ true (fun _ => hfail _)]
    by_cases hown : ∀ e ∈ s.emails, e.userID ≠ some userId
    · rw [if_pos hown]
      by_cases hl : (c.Stash StashPathLoginMethod).String = "passcode" <;>
        exact ⟨rfl, valid_primaryEmails hs1 _,
          ⟨⟨d.newEmailID, some userId, (c.Stash StashPathEmail).String, true⟩,
            by simp, rfl, rfl⟩, by simp [hl, List.filter_cons, Effect.isAuditOf]⟩
    · rw [if_neg hown]
      by_cases hl : (c.Stash StashPathLoginMethod).String = "passcode" <;>
        exact ⟨rfl, hs1,
          ⟨⟨d.newEmailID, some userId, (c.Stash StashPathEmail).String, true⟩,
            by simp, rfl, rfl⟩, by simp [hl, List.filter_cons, Effect.isAuditOf]⟩
  | some found =>
    have hf : found ∈ s.emails := List.mem_of_find?_eq_some hm
    have hfa : found.address = (c.Stash StashPathEmail).String := by
      have := List.find?_some hm
      simpa using this
    cases hver : found.verified with
    | true =>
      rw [Execute_on_verified_email d c s found userId hs hf hver hv he hfa.symm hu hp hfail]
      refine ⟨rfl, hs, ⟨found, hf, hfa, hver⟩, ?_⟩
      by_cases hl : (c.Stash StashPathLoginMethod).String = "passcode" <;>
        simp [hl, List.filter_cons, Effect.isAuditOf, hfa]
    | false =>
      rw [Execute_parsed d c s userId hv he hu hp, FindByAddress_ok d _ _ (hfail _)]
      simp only [World.log, hm]
      rw [persistStage_update d _ userId _ found hs hf hver (hfail _)]
      simp only
      rw [auditStage_ok d c _ userId _ false (fun _ => hfail _)]
      refine ⟨rfl, ?_, ⟨{ found with verified := true }, ?_, hfa, rfl⟩, ?_⟩
      · have := valid_update hs hf true
        rw [update_map_eq hs hf] at this
        convert this using 3
        funext x
        by_cases h : x = found <;> simp [h]
      · simp only [List.mem_map]
        exact ⟨found, hf, by simp⟩
      · by_cases hl : (c.Stash StashPathLoginMethod).String = "passcode" <;>
          simp [hl, List.filter_cons, Effect.isAuditOf]

theorem Result.bool_of_not_exists (r : Result) (h : r.Exists = false) : r.Bool = false := by
  cases r <;> simp_all [Result.Exists, Result.Bool]

/-- Scenario B satisfies the primary-email invariant. -/
theorem exStoreB_invariant : PrimaryEmailInvariant exStoreB := by
  refine ⟨?_, by decide⟩
  intro u
  by_cases h : (7 : UUID) = u <;> simp [exStoreB, List.filter_cons, h]

/-! ## Lemmas on the queries -/

theorem likeMatch_percent (fold : Char → Char) (escape : Option Char) (t : List Char) :
    likeMatch fold escape false ['%'] t = true := by
  simp only [likeMatch, Bool.false_eq_true, if_false, if_true, List.any_eq_true]
  exact ⟨[], by simp, by simp [likeMatch]⟩

/-- A pattern without special characters followed by `%` matches the texts it is a prefix
of, up to folding. -/
theorem likeMatch_literal_percent (fold : Char → Char) (escape : Option Char)
    (ps : List Char) (hps : ∀ ch ∈ ps, ch ≠ '%' ∧ ch ≠ '_' ∧ some ch ≠ escape)
    (t : List Char) :
    likeMatch fold escape false (ps ++ ['%']) t = true ↔ ps.map fold <+: t.map fold := by
  induction ps generalizing t with
  | nil => simp [likeMatch_percent]
  | cons p ps ih =>
    have hp := hps p (List.mem_cons_self _ _)
    have hps2 : ∀ ch ∈ ps, ch ≠ '%' ∧ ch ≠ '_' ∧ some ch ≠ escape :=
      fun ch h => hps ch (List.mem_cons_of_mem _ h)
    cases t with
    | nil => simp [likeMatch, hp.1, hp.2.1, hp.2.2]
    | cons c cs =>
      have ih2 := ih hps2 cs
      simp only [List.cons_append, likeMatch, hp.1, hp.2.1, hp.2.2, if_false, Bool.and_eq_true,
        Bool.false_eq_true,
        decide_eq_true_eq, List.map_cons, List.cons_prefix_cons]
      exact and_congr_right fun _ => ih2

theorem infix_map_iff {α β : Type} (f : α → β) (x : List β) (t : List α) :
    x <:+: t.map f ↔ ∃ suffix, suffix <:+ t ∧ x <+: suffix.map f := by
  constructor
  · rintro ⟨a, b, h⟩
    have h2 : a ++ (x ++ b) = t.map f := by rw [← h, List.append_assoc]
    obtain ⟨t1, t2, ht, -, h4⟩ := List.map_eq_append_iff.mp h2.symm
    exact ⟨t2, ⟨t1, ht.symm⟩, ⟨b, h4.symm⟩⟩
  · rintro ⟨suffix, ⟨t1, ht⟩, ⟨b, hb⟩⟩
    refine ⟨t1.map f, b, ?_⟩
    rw [← ht, List.map_append, ← hb, List.append_assoc]

/-- The pattern `%sub%`, for `sub` without special characters, matches the texts that
contain `sub`, up to folding. -/
theorem likeMatch_contains (fold : Char → Char) (escape : Option Char)
    (ps : List Char) (hps : ∀ ch ∈ ps, ch ≠ '%' ∧ ch ≠ '_' ∧ some ch ≠ escape)
    (t : List Char) :
    likeMatch fold escape false ('%' :: (ps ++ ['%'])) t = true ↔ ps.map fold <:+: t.map fold := by
  simp only [likeMatch, Bool.false_eq_true, if_false, if_true, List.any_eq_true, List.mem_tails,
    likeMatch_literal_percent fold escape ps hps]
  rw [infix_map_iff]

theorem like_contains (db : Database) (text sub : String) (h : noWildcard db sub) :
    like db text ("%" ++ sub ++ "%") = true ↔ contains db text sub := by
  unfold like contains
  have : ("%" ++ sub ++ "%").data = '%' :: (sub.data ++ ['%']) := by
    simp [String.data_append]
  rw [this]
  exact likeMatch_contains db.fold db.escape sub.data h text.data

theorem and3_eq_true (a b : Option Bool) :
    and3 a b = some true ↔ a = some true ∧ b = some true := by
  rcases a with _ | _ | _ <;> rcases b with _ | _ | _ <;> simp [and3]

theorem or3_eq_true (a b : Option Bool) :
    or3 a b = some true ↔ a = some true ∨ b = some true := by
  rcases a with _ | _ | _ <;> rcases b with _ | _ | _ <;> simp [or3]

theorem evalConj_eq_true (db : Database) (r : JoinedRow) (conj : List Atom) :
    evalConj db r conj = some true ↔ ∀ a ∈ conj, a.eval db r = some true := by
  induction conj with
  | nil => simp [evalConj]
  | cons a as ih =>
    simp only [evalConj, List.foldr_cons] at ih ⊢
    rw [and3_eq_true, ih]
    simp

theorem Fragment.eval_eq_true (db : Database) (r : JoinedRow) (f : Fragment) :
    Fragment.eval db r f = some true ↔ ∃ conj ∈ f, ∀ a ∈ conj, a.eval db r = some true := by
  induction f with
  | nil => simp [Fragment.eval]
  | cons c cs ih =>
    simp only [Fragment.eval, List.foldr_cons] at ih ⊢
    rw [or3_eq_true, ih, evalConj_eq_true]
    simp

theorem mem_nullExtend {α : Type} (l : List α) (x : Option α) :
    x ∈ nullExtend l ↔ (l = [] ∧ x = none) ∨ ∃ a ∈ l, x = some a := by
  unfold nullExtend
  cases l with
  | nil => simp
  | cons a as =>
    simp only [List.isEmpty_cons, Bool.false_eq_true, if_false, List.mem_map]
    constructor
    · rintro ⟨b, hb, rfl⟩; exact Or.inr ⟨b, hb, rfl⟩
    · rintro (⟨h, -⟩ | ⟨b, hb, rfl⟩)
      · cases h
      · exact ⟨b, hb, rfl⟩

theorem nullExtend_ne_nil {α : Type} (l : List α) : ∃ x, x ∈ nullExtend l := by
  cases l with
  | nil => exact ⟨none, by simp [nullExtend]⟩
  | cons a as => exact ⟨some a, by simp [nullExtend]⟩

theorem mem_joinedRowsOf (s : Store) (u : UserRow) (r : JoinedRow) :
    r ∈ joinedRowsOf s u ↔ r.user = u ∧
      r.email ∈ nullExtend (s.emails.filter (fun e => e.userID = some u.id)) ∧
      r.username ∈ nullExtend (s.usernames.filter (fun n => n.userID = u.id)) := by
  unfold joinedRowsOf
  simp only [List.mem_flatMap, List.mem_map]
  constructor
  · rintro ⟨e, he, n, hn, rfl⟩; exact ⟨rfl, he, hn⟩
  · rintro ⟨h1, h2, h3⟩
    refine ⟨r.email, h2, r.username, h3, ?_⟩
    cases r; simp_all

/-- A user row without emails and usernames has a single joined row, NULL on both sides. -/
theorem joinedRowsOf_incomplete (s : Store) (u : UserRow)
    (he : ∀ e ∈ s.emails, e.userID ≠ some u.id) (hn : ∀ n ∈ s.usernames, n.userID ≠ u.id) :
    joinedRowsOf s u = [⟨u, none, none⟩] := by
  have h1 : s.emails.filter (fun e => decide (e.userID = some u.id)) = [] := by
    rw [List.filter_eq_nil_iff]; intro e hmem; simpa using he e hmem
  have h2 : s.usernames.filter (fun n => decide (n.userID = u.id)) = [] := by
    rw [List.filter_eq_nil_iff]; intro n hmem; simpa using hn n hmem
  simp [joinedRowsOf, h1, h2, nullExtend]

/-- A user row without emails and usernames is not selected, whatever the query. -/
theorem not_selected_of_incomplete (db : Database) (s : Store) (query : Query) (u : UserRow)
    (he : ∀ e ∈ s.emails, e.userID ≠ some u.id) (hn : ∀ n ∈ s.usernames, n.userID ≠ u.id) :
    (!(groupOf db s query u).isEmpty && having (groupOf db s query u)) = false := by
  unfold groupOf
  rw [joinedRowsOf_incomplete s u he hn]
  by_cases hk : query.keeps db ⟨u, none, none⟩ = true <;> simp [List.filter_cons, hk, having]

theorem mem_paginate {α : Type} (db : Database) (page perPage : Int) (rows l : List α) (x : α)
    (hp : paginate db page perPage rows = .ok l) (h : x ∈ l) : x ∈ rows := by
  unfold paginate at hp
  simp only at hp
  split at hp
  · cases hp
  · cases hp
    exact List.mem_of_mem_drop (List.mem_of_mem_take h)

theorem mem_orderBy (db : Database) (sortDirection : String) (users l : List UserRow)
    (x : UserRow) (ho : orderBy db sortDirection users = .ok l) (h : x ∈ l) : x ∈ users := by
  unfold orderBy at ho
  split at ho
  · cases ho
  · cases ho
    exact (List.perm_insertionSort _ _).mem_iff.mp h

theorem mem_fetchPage (db : Database) (sortDirection : String) (page perPage : Int)
    (selected l : List UserRow) (x : UserRow)
    (hf : fetchPage db sortDirection page perPage selected = .ok l) (h : x ∈ l) :
    x ∈ selected := by
  unfold fetchPage at hf
  split at hf
  · cases hf
  · split at hf
    · cases hf
    · rename_i sorted hs
      exact mem_orderBy db sortDirection selected sorted x hs
        (mem_paginate db page perPage sorted l x hf h)

theorem emailLike_eval (db : Database) (r : JoinedRow) (p : String) :
    (Atom.emailLike p).eval db r = some true ↔ ∃ e, r.email = some e ∧ like db e.address p = true := by
  cases h : r.email <;> simp [Atom.eval, h]

theorem usernameLike_eval (db : Database) (r : JoinedRow) (p : String) :
    (Atom.usernameLike p).eval db r = some true ↔
      ∃ n, r.username = some n ∧ like db n.username p = true := by
  cases h : r.username <;> simp [Atom.eval, h]

theorem userIdIn_eval (db : Database) (r : JoinedRow) (ids : List UUID) :
    (Atom.userIdIn ids).eval db r = some true ↔ r.user.id ∈ ids := by
  simp [Atom.eval]

theorem exists_row (s : Store) (u : UserRow) : ∃ r, r ∈ joinedRowsOf s u := by
  obtain ⟨e, he⟩ := nullExtend_ne_nil (s.emails.filter (fun e => e.userID = some u.id))
  obtain ⟨n, hn⟩ := nullExtend_ne_nil (s.usernames.filter (fun n => n.userID = u.id))
  exact ⟨⟨u, e, n⟩, (mem_joinedRowsOf s u _).mpr ⟨rfl, he, hn⟩⟩

theorem exists_row_email (s : Store) (u : UserRow) (p : Email → Prop) :
    (∃ r ∈ joinedRowsOf s u, ∃ e, r.email = some e ∧ p e) ↔
      ∃ e ∈ s.emails, e.userID = some u.id ∧ p e := by
  constructor
  · rintro ⟨r, hr, e, he, hp⟩
    obtain ⟨-, h2, -⟩ := (mem_joinedRowsOf s u r).mp hr
    rw [he, mem_nullExtend] at h2
    rcases h2 with ⟨-, h⟩ | ⟨a, ha, h⟩
    · cases h
    · cases h
      simp only [List.mem_filter, decide_eq_true_eq] at ha
      exact ⟨e, ha.1, ha.2, hp⟩
  · rintro ⟨e, he, hu, hp⟩
    obtain ⟨n, hn⟩ := nullExtend_ne_nil (s.usernames.filter (fun n => n.userID = u.id))
    refine ⟨⟨u, some e, n⟩, (mem_joinedRowsOf s u _).mpr ⟨rfl, ?_, hn⟩, e, rfl, hp⟩
    rw [mem_nullExtend]
    exact Or.inr ⟨e, by simp [he, hu], rfl⟩

theorem exists_row_username (s : Store) (u : UserRow) (p : Username → Prop) :
    (∃ r ∈ joinedRowsOf s u, ∃ n, r.username = some n ∧ p n) ↔
      ∃ n ∈ s.usernames, n.userID = u.id ∧ p n := by
  constructor
  · rintro ⟨r, hr, n, hn, hp⟩
    obtain ⟨-, -, h3⟩ := (mem_joinedRowsOf s u r).mp hr
    rw [hn, mem_nullExtend] at h3
    rcases h3 with ⟨-, h⟩ | ⟨a, ha, h⟩
    · cases h
    · cases h
      simp only [List.mem_filter, decide_eq_true_eq] at ha
      exact ⟨n, ha.1, ha.2, hp⟩
  · rintro ⟨n, hn, hu, hp⟩
    obtain ⟨e, he⟩ := nullExtend_ne_nil (s.emails.filter (fun e => e.userID = some u.id))
    refine ⟨⟨u, e, some n⟩, (mem_joinedRowsOf s u _).mpr ⟨rfl, he, ?_⟩, n, rfl, hp⟩
    rw [mem_nullExtend]
    exact Or.inr ⟨n, by simp [hn, hu], rfl⟩

theorem row_user {s : Store} {u : UserRow} {r : JoinedRow} (h : r ∈ joinedRowsOf s u) :
    r.user = u := ((mem_joinedRowsOf s u r).mp h).1

/-- The rows the user has that pass a comparison of the email, with or without the id
filter. -/
theorem selects_email (db : Database) (s : Store) (u : UserRow) (p : String) (ids : List UUID) :
    ((∃ r ∈ joinedRowsOf s u, (Atom.emailLike p).eval db r = some true) ↔
      ∃ e ∈ s.emails, e.userID = some u.id ∧ like db e.address p = true) ∧
    ((∃ r ∈ joinedRowsOf s u,
        (Atom.emailLike p).eval db r = some true ∧ (Atom.userIdIn ids).eval db r = some true) ↔
      (∃ e ∈ s.emails, e.userID = some u.id ∧ like db e.address p = true) ∧ u.id ∈ ids) := by
  constructor
  · simp only [emailLike_eval]
    exact exists_row_email s u _
  · rw [← exists_row_email s u (fun e => like db e.address p = true)]
    simp only [emailLike_eval, userIdIn_eval]
    constructor
    · rintro ⟨r, hr, h1, h2⟩; exact ⟨⟨r, hr, h1⟩, row_user hr ▸ h2⟩
    · rintro ⟨⟨r, hr, h1⟩, h2⟩; exact ⟨r, hr, h1, (row_user hr).symm ▸ h2⟩

theorem selects_username (db : Database) (s : Store) (u : UserRow) (p : String) (ids : List UUID) :
    ((∃ r ∈ joinedRowsOf s u, (Atom.usernameLike p).eval db r = some true) ↔
      ∃ n ∈ s.usernames, n.userID = u.id ∧ like db n.username p = true) ∧
    ((∃ r ∈ joinedRowsOf s u,
        (Atom.usernameLike p).eval db r = some true ∧ (Atom.userIdIn ids).eval db r = some true) ↔
      (∃ n ∈ s.usernames, n.userID = u.id ∧ like db n.username p = true) ∧ u.id ∈ ids) := by
  constructor
  · simp only [usernameLike_eval]
    exact exists_row_username s u _
  · rw [← exists_row_username s u (fun n => like db n.username p = true)]
    simp only [usernameLike_eval, userIdIn_eval]
    constructor
    · rintro ⟨r, hr, h1, h2⟩; exact ⟨⟨r, hr, h1⟩, row_user hr ▸ h2⟩
    · rintro ⟨⟨r, hr, h1⟩, h2⟩; exact ⟨r, hr, h1, (row_user hr).symm ▸ h2⟩

theorem keeps_eq_true (db : Database) (q : Query) (r : JoinedRow) (f : Fragment) (h : q.whereSQL = some f) :
    q.keeps db r = true ↔ ∃ conj ∈ f, ∀ a ∈ conj, a.eval db r = some true := by
  simp [Query.keeps, h, Fragment.eval_eq_true]

theorem selects_iff_specFilter (db : Database) (s : Store) (userIDs : List UUID) (email username : String)
    (u : UserRow) (hwe : noWildcard db email) (hwu : noWildcard db username)
    (hcase : userIDs = [] ∨ email = "" ∨ username = "") :
    selects db s userIDs email username u ↔ specFilter db s userIDs email username u := by
  have hle : ∀ t, like db t ("%" ++ email ++ "%") = true ↔ contains db t email :=
    fun t => like_contains db t email hwe
  have hlu : ∀ t, like db t ("%" ++ username ++ "%") = true ↔ contains db t username :=
    fun t => like_contains db t username hwu
  unfold selects specFilter ownsEmailContaining ownsUsernameContaining
  by_cases he : email = ""
  · by_cases hn : username = ""
    · cases userIDs with
      | nil =>
        have hq : (addQueryParamsToSqlQuery Query.Q [] email username).keeps db = fun _ => true := by
          funext r
          simp [addQueryParamsToSqlQuery, Query.Where, Query.Q, Query.keeps, Query.whereSQL, he, hn]
        simp only [hq]
        simpa [he, hn] using exists_row s u
      | cons i is =>
        have hq : (addQueryParamsToSqlQuery Query.Q (i :: is) email username).whereSQL =
            some [[.userIdIn (i :: is)]] := by
          simp [addQueryParamsToSqlQuery, Query.Where, Query.Q, Query.whereSQL, he, hn]
        simp only [keeps_eq_true db _ _ _ hq]
        obtain ⟨r, hr⟩ := exists_row s u
        simp only [List.mem_singleton, exists_eq_left, forall_eq, userIdIn_eval]
        constructor
        · rintro ⟨r, hr, h⟩; exact ⟨by simp [he, hn], fun _ => row_user hr ▸ h⟩
        · rintro ⟨-, h⟩; exact ⟨r, hr, (row_user hr).symm ▸ h (by simp)⟩
    · cases userIDs with
      | nil =>
        have hq : (addQueryParamsToSqlQuery Query.Q [] email username).whereSQL =
            some [[.usernameLike ("%" ++ username ++ "%")]] := by
          simp [addQueryParamsToSqlQuery, Query.Where, Query.Q, Query.whereSQL, he, hn]
        simp only [keeps_eq_true db _ _ _ hq]
        have h2 := (selects_username db s u ("%" ++ username ++ "%") []).1
        simp only [hlu] at h2
        simp only [List.mem_singleton, exists_eq_left, forall_eq, h2]
        simp [he, hn]
      | cons i is =>
        have hq : (addQueryParamsToSqlQuery Query.Q (i :: is) email username).whereSQL =
            some [[.usernameLike ("%" ++ username ++ "%"), .userIdIn (i :: is)]] := by
          simp [addQueryParamsToSqlQuery, Query.Where, Query.Q, Query.whereSQL, he, hn, joinAnd]
        simp only [keeps_eq_true db _ _ _ hq]
        have h2 := (selects_username db s u ("%" ++ username ++ "%") (i :: is)).2
        simp only [hlu] at h2
        simp only [List.mem_singleton, exists_eq_left, List.mem_cons, forall_eq_or_imp, forall_eq,
          List.not_mem_nil, IsEmpty.forall_iff, implies_true, and_true, h2]
        simp [he, hn]
        rw [h2]
        simp
  · by_cases hn : username = ""
    · cases userIDs with
      | nil =>
        have hq : (addQueryParamsToSqlQuery Query.Q [] email username).whereSQL =
            some [[.emailLike ("%" ++ email ++ "%")]] := by
          simp [addQueryParamsToSqlQuery, Query.Where, Query.Q, Query.whereSQL, he, hn]
        simp only [keeps_eq_true db _ _ _ hq]
        have h1 := (selects_email db s u ("%" ++ email ++ "%") []).1
        simp only [hle] at h1
        simp only [List.mem_singleton, exists_eq_left, forall_eq, h1]
        simp [he, hn]
      | cons i is =>
        have hq : (addQueryParamsToSqlQuery Query.Q (i :: is) email username).whereSQL =
            some [[.emailLike ("%" ++ email ++ "%"), .userIdIn (i :: is)]] := by
          simp [addQueryParamsToSqlQuery, Query.Where, Query.Q, Query.whereSQL, he, hn, joinAnd]
        simp only [keeps_eq_true db _ _ _ hq]
        have h1 := (selects_email db s u ("%" ++ email ++ "%") (i :: is)).2
        simp only [hle] at h1
        simp only [List.mem_singleton, exists_eq_left, List.mem_cons, forall_eq_or_imp, forall_eq,
          List.not_mem_nil, IsEmpty.forall_iff, implies_true, and_true, h1]
        simp [he, hn]
        rw [h1]
        simp
    · cases userIDs with
      | nil =>
        have hq : (addQueryParamsToSqlQuery Query.Q [] email username).whereSQL =
            some [[.emailLike ("%" ++ email ++ "%")], [.usernameLike ("%" ++ username ++ "%")]] := by
          simp [addQueryParamsToSqlQuery, Query.Where, Query.Q, Query.whereSQL, he, hn]
        simp only [keeps_eq_true db _ _ _ hq]
        have h1 := (selects_email db s u ("%" ++ email ++ "%") []).1
        have h2 := (selects_username db s u ("%" ++ username ++ "%") []).1
        simp only [hle] at h1
        simp only [hlu] at h2
        simp only [List.mem_cons, List.mem_singleton, List.not_mem_nil, or_false,
          exists_eq_or_imp, exists_eq_left, forall_eq, exists_or, or_and_right, h1, h2]
        simp [he, hn]
        rw [← h1, ← h2]
        constructor
        · rintro ⟨r, hr, h | h⟩
          · exact Or.inl ⟨r, hr, h⟩
          · exact Or.inr ⟨r, hr, h⟩
        · rintro (⟨r, hr, h⟩ | ⟨r, hr, h⟩)
          · exact ⟨r, hr, Or.inl h⟩
          · exact ⟨r, hr, Or.inr h⟩
      | cons i is =>
        exfalso
        rcases hcase with h | h | h
        · cases h
        · exact he h
        · exact hn h

theorem having_eq_true (group : List JoinedRow) :
    having group = true ↔ ∃ r ∈ group, r.email.isSome = true ∨ r.username.isSome = true := by
  unfold having
  simp only [gt_iff_lt, List.length_pos, decide_eq_true_eq, ne_eq, List.filter_eq_nil_iff,
    not_forall, Classical.not_imp, Decidable.not_not]
  constructor
  · rintro (⟨r, hr, h⟩ | ⟨r, hr, h⟩)
    · exact ⟨r, hr, Or.inl h⟩
    · exact ⟨r, hr, Or.inr h⟩
  · rintro ⟨r, hr, h | h⟩
    · exact Or.inl ⟨r, hr, h⟩
    · exact Or.inr ⟨r, hr, h⟩

theorem isSome_of_mem_nullExtend {α : Type} {l : List α} {x : Option α}
    (h : x ∈ nullExtend l) : x.isSome = true ↔ l ≠ [] := by
  rw [mem_nullExtend] at h
  rcases h with ⟨h1, h2⟩ | ⟨a, ha, h2⟩
  · simp [h1, h2]
  · subst h2
    simp only [Option.isSome_some, ne_eq, true_iff]
    intro hl
    simp [hl] at ha

/-- A user row is selected by the query exactly when one of its joined rows passes the
`WHERE` condition and the user owns an email or a username. -/
theorem selected_iff (db : Database) (s : Store) (q : Query) (u : UserRow) :
    (!(groupOf db s q u).isEmpty && having (groupOf db s q u)) = true ↔
      (∃ r ∈ joinedRowsOf s u, q.keeps db r = true) ∧ complete s u := by
  have hcomplete : ∀ r ∈ joinedRowsOf s u,
      (r.email.isSome = true ∨ r.username.isSome = true) ↔ complete s u := by
    intro r hr
    obtain ⟨-, h2, h3⟩ := (mem_joinedRowsOf s u r).mp hr
    rw [isSome_of_mem_nullExtend h2, isSome_of_mem_nullExtend h3]
    unfold complete
    simp only [ne_eq, List.filter_eq_nil_iff, decide_eq_true_eq, not_forall, Classical.not_imp,
      Decidable.not_not, exists_prop]
  simp only [Bool.and_eq_true, having_eq_true, groupOf, List.mem_filter]
  constructor
  · rintro ⟨-, r, ⟨hr, hk⟩, h⟩
    exact ⟨⟨r, hr, hk⟩, (hcomplete r hr).mp h⟩
  · rintro ⟨⟨r, hr, hk⟩, hc⟩
    refine ⟨?_, r, ⟨hr, hk⟩, (hcomplete r hr).mpr hc⟩
    simp only [Bool.not_eq_true', List.isEmpty_eq_false, ne_eq, List.filter_eq_nil_iff,
      not_forall, Classical.not_imp, Decidable.not_not]
    exact ⟨r, hr, by simpa using hk⟩

theorem selectedUsers_eq (db : Database) (s : Store) (userIDs : List UUID) (email username : String) :
    selectedUsers db s (addQueryParamsToSqlQuery Query.Q userIDs email username) =
      s.users.filter (fun u => decide (selects db s userIDs email username u ∧ complete s u)) := by
  unfold selectedUsers
  apply List.filter_congr
  intro u _
  rw [Bool.eq_iff_iff, selected_iff, decide_eq_true_eq]
  rfl

/-! ## Properties of `Execute` -/

/-- C1 (the primary-email invariant is preserved).  For every store satisfying the key
constraints of table `emails` in which each user has at most one primary email and every
primary email references a verified email owned by the same user, for every scratch space
and whatever the collaborators do (failing or not), the store after a run of `Execute`
again has at most one primary email per user, each referencing a verified email owned by
that user. -/
theorem Execute_preserves_primaryEmailInvariant (d : Deps) (c : HookExecutionContext)
    (s : Store) (hs : s.Valid) (hi : PrimaryEmailInvariant s) :
    PrimaryEmailInvariant (Execute d c s).world.store :=
  (Execute_valid_invariant d c s hs hi).2

/-- On scenario B the run flips "a@x.com" to verified and the invariant still holds. -/
theorem Execute_preserves_primaryEmailInvariant_witness :
    exStoreB.Valid ∧ PrimaryEmailInvariant exStoreB ∧
    (Execute exDeps (exContext "password") exStoreB).world.store.emails =
      [⟨1, some 7, "a@x.com", true⟩, ⟨2, some 7, "b@x.com", true⟩] ∧
    PrimaryEmailInvariant (Execute exDeps (exContext "password") exStoreB).world.store :=
  ⟨by decide, exStoreB_invariant, by decide,
    Execute_preserves_primaryEmailInvariant exDeps (exContext "password") exStoreB (by decide)
      exStoreB_invariant⟩

/-- C2, amended (two invocations in succession).  On a store satisfying the key constraints,
invoking `Execute` twice in succession with verified = true, the same address and the same
user id, no collaborator failing, leaves exactly one email with that address, verified;
the second invocation writes nothing (the store is the one the first invocation left) and
does not notify, its only calls being the lookup and, unless the login method is
"passcode", an "email verified" audit entry.  Across the two invocations the "email
verified" audit entry is made twice (once by each) when the login method is not
"passcode", and never when it is. -/
theorem Execute_twice (d1 d2 : Deps) (c : HookExecutionContext) (s : Store)
    (address : String) (userId : UUID)
    (hs : s.Valid)
    (hv : (c.Stash StashPathEmailVerified).Bool = true)
    (he : (c.Stash StashPathEmail).Exists = true)
    (ha : (c.Stash StashPathEmail).String = address)
    (hu : (c.Stash StashPathUserID).Exists = true)
    (hp1 : d1.FromString (c.Stash StashPathUserID).String = .ok userId)
    (hp2 : d2.FromString (c.Stash StashPathUserID).String = .ok userId)
    (hfail1 : ∀ e, d1.fails e = none)
    (hfail2 : ∀ e, d2.fails e = none)
    (hfreshE : d1.newEmailID ∉ s.emails.map (·.id))
    (hfreshP : d1.newPrimaryEmailID ∉ s.primaryEmails.map (·.id)) :
    (Execute d1 c s).err = none ∧
    (Execute d2 { c with sessionUser := (Execute d1 c s).world.sessionUser }
      (Execute d1 c s).world.store).err = none ∧
    (∃ e, (Execute d2 { c with sessionUser := (Execute d1 c s).world.sessionUser }
        (Execute d1 c s).world.store).world.store.emails.filter
          (fun x => decide (x.address = address)) = [e] ∧ e.verified = true) ∧
    (Execute d2 { c with sessionUser := (Execute d1 c s).world.sessionUser }
      (Execute d1 c s).world.store).world.store = (Execute d1 c s).world.store ∧
    (Execute d2 { c with sessionUser := (Execute d1 c s).world.sessionUser }
      (Execute d1 c s).world.store).world.trace = [.findByAddress address] ++
        (if (c.Stash StashPathLoginMethod).String ≠ "passcode" then
          [.audit AuditLogEmailVerified userId address c.GetFlowID] else []) ∧
    (((Execute d1 c s).world.trace ++
      (Execute d2 { c with sessionUser := (Execute d1 c s).world.sessionUser }
        (Execute d1 c s).world.store).world.trace).filter
          (Effect.isAuditOf AuditLogEmailVerified)).length =
      (if (c.Stash StashPathLoginMethod).String ≠ "passcode" then 2 else 0) := by
  obtain ⟨h1, hs1, ⟨e, hmem, haddr, hver⟩, htr⟩ :=
    Execute_first_run d1 c s address userId hs hv he ha hu hp1 hfail1 hfreshE hfreshP
  have h2 := Execute_on_verified_email d2
    { c with sessionUser := (Execute d1 c s).world.sessionUser } (Execute d1 c s).world.store
    e userId hs1 hmem hver hv he (ha.trans haddr.symm) hu hp2 hfail2
  rw [haddr] at h2
  simp only at h2
  refine ⟨h1, ?_, ⟨e, ?_, hver⟩, ?_, ?_, ?_⟩
  · rw [h2]
  · rw [h2]; simp only
    rw [← haddr]
    exact filter_address_eq hs1.2 hmem
  · rw [h2]
  · rw [h2]
  · rw [List.filter_append, htr, h2]
    by_cases hl : (c.Stash StashPathLoginMethod).String = "passcode" <;>
      simp [hl, List.filter_cons, Effect.isAuditOf]

/-- On scenario A with login method "password" the second invocation leaves the store of
the first, and the two invocations make two "email verified" audit entries. -/
theorem Execute_twice_witness :
    exStoreA.Valid ∧
    (Execute exDeps (exContext "password")
      (Execute exDeps (exContext "password") exStoreA).world.store).world.store =
      (Execute exDeps (exContext "password") exStoreA).world.store ∧
    (((Execute exDeps (exContext "password") exStoreA).world.trace ++
      (Execute exDeps (exContext "password")
        (Execute exDeps (exContext "password") exStoreA).world.store).world.trace).filter
          (Effect.isAuditOf AuditLogEmailVerified)).length = 2 :=
  ⟨by decide,
    (Execute_twice exDeps exDeps (exContext "password") exStoreA "a@x.com" 7 (by decide)
      rfl rfl rfl rfl rfl rfl (fun _ => rfl) (fun _ => rfl) (by decide) (by decide)).2.2.2.1,
    (Execute_twice exDeps exDeps (exContext "password") exStoreA "a@x.com" 7 (by decide)
      rfl rfl rfl rfl rfl rfl (fun _ => rfl) (fun _ => rfl) (by decide) (by decide)).2.2.2.2.2⟩

/-- At most one audit entry across two invocations does not hold: in scenario A with login
method "password", the two invocations make two "email verified" audit entries, and the
second invocation is not a pure no-op (it makes the lookup and an audit entry). -/
theorem two_invocations_audit_twice :
    exStoreA.Valid ∧
    ¬ (((Execute exDeps (exContext "password") exStoreA).world.trace ++
        (Execute exDeps (exContext "password")
          (Execute exDeps (exContext "password") exStoreA).world.store).world.trace).filter
          (Effect.isAuditOf AuditLogEmailVerified)).length ≤ 1 ∧
    (Execute exDeps (exContext "password")
        (Execute exDeps (exContext "password") exStoreA).world.store).world.trace =
      [.findByAddress "a@x.com", .audit AuditLogEmailVerified 7 "a@x.com" "flow-1"] := by
  decide

/-- C3 (create-and-promote branch).  When no email has the pending address, the stash holds
verified = true, that address and a parseable user id, the login method is not "passcode",
and no collaborator fails (no injected failure, fresh ids for the new rows), `Execute`
returns `nil`; the store gains exactly one email (that address, verified, owned by the
user); a primary email linking the user to it is created exactly when the user owned no
email before; the audit logger is called once with "email verified" and once with
"email created"; the notifier is called exactly once, with `UserEmailCreate` for the
user. -/
theorem Execute_create_and_promote (d : Deps) (c : HookExecutionContext) (s : Store)
    (address : String) (userId : UUID)
    (hv : (c.Stash StashPathEmailVerified).Bool = true)
    (he : (c.Stash StashPathEmail).Exists = true)
    (ha : (c.Stash StashPathEmail).String = address)
    (hu : (c.Stash StashPathUserID).Exists = true)
    (hp : d.FromString (c.Stash StashPathUserID).String = .ok userId)
    (hl : (c.Stash StashPathLoginMethod).String ≠ "passcode")
    (hfail : ∀ e, d.fails e = none)
    (hfreshE : d.newEmailID ∉ s.emails.map (·.id))
    (hfreshP : d.newPrimaryEmailID ∉ s.primaryEmails.map (·.id))
    (hno : ∀ e ∈ s.emails, e.address ≠ address) :
    (Execute d c s).err = none ∧
    (Execute d c s).world.store =
      { s with
        emails := s.emails ++ [⟨d.newEmailID, some userId, address, true⟩]
        primaryEmails :=
          if ∀ e ∈ s.emails, e.userID ≠ some userId then
            s.primaryEmails ++ [⟨d.newPrimaryEmailID, d.newEmailID, userId⟩]
          else s.primaryEmails } ∧
    (Execute d c s).world.trace.filter Effect.isAudit =
      [.audit AuditLogEmailVerified userId address c.GetFlowID,
       .audit AuditLogEmailCreated userId address c.GetFlowID] ∧
    (Execute d c s).world.trace.filter Effect.isNotify = [.notify UserEmailCreate userId] := by
  subst ha
  rw [Execute_parsed d c s userId hv he hu hp, FindByAddress_ok d _ _ (hfail _)]
  simp only [World.log, find?_address_none hno]
  rw [persistStage_create d _ userId _ hfail hfreshE hfreshP hno]
  simp only
  rw [auditStage_ok d c _ userId _ true (fun _ => hfail _)]
  by_cases hown : ∀ e ∈ s.emails, e.userID ≠ some userId
  · simp only [if_pos hown]
    simp [hl, Effect.isAudit, Effect.isNotify, List.filter_cons]
  · simp only [if_neg hown]
    simp [hl, Effect.isAudit, Effect.isNotify, List.filter_cons]

/-- On scenario A the run leaves one email "a@x.com" (verified, owned by user 7), one primary email
linking user 7 to it, both audit entries, one notification. -/
theorem Execute_create_and_promote_witness :
    (Execute exDeps (exContext "password") exStoreA).err = none ∧
    (Execute exDeps (exContext "password") exStoreA).world.store =
      ⟨[⟨7, 0⟩], [⟨100, some 7, "a@x.com", true⟩], [⟨200, 100, 7⟩], [], [], [], []⟩ ∧
    (Execute exDeps (exContext "password") exStoreA).world.trace.filter Effect.isAudit =
      [.audit AuditLogEmailVerified 7 "a@x.com" "flow-1",
       .audit AuditLogEmailCreated 7 "a@x.com" "flow-1"] ∧
    (Execute exDeps (exContext "password") exStoreA).world.trace.filter Effect.isNotify =
      [.notify UserEmailCreate 7] :=
  Execute_create_and_promote exDeps (exContext "password") exStoreA "a@x.com" 7
    rfl rfl rfl rfl rfl (by decide) (fun _ => rfl) (by decide) (by decide) (by decide)

/-- C4 (update-to-verified branch).  In a store whose email with the pending address is
unverified (whichever user owns it), with verified = true, a parseable user id, a login
method other than "passcode" and no failing collaborator, `Execute` returns `nil`, sets
the verified flag of that row and changes nothing else in the store; it calls the audit
logger exactly once, with "email verified", and does not call the notifier (the trace is
the lookup, the update and that one audit entry). -/
theorem Execute_update_to_verified (d : Deps) (c : HookExecutionContext) (s : Store)
    (found : Email) (userId : UUID)
    (hs : s.Valid)
    (hf : found ∈ s.emails)
    (hver : found.verified = false)
    (hv : (c.Stash StashPathEmailVerified).Bool = true)
    (he : (c.Stash StashPathEmail).Exists = true)
    (ha : (c.Stash StashPathEmail).String = found.address)
    (hu : (c.Stash StashPathUserID).Exists = true)
    (hp : d.FromString (c.Stash StashPathUserID).String = .ok userId)
    (hl : (c.Stash StashPathLoginMethod).String ≠ "passcode")
    (hfail : ∀ e, d.fails e = none) :
    (Execute d c s).err = none ∧
    (Execute d c s).world.store =
      { s with
        emails := s.emails.map (fun x => if x = found then { x with verified := true } else x) } ∧
    (Execute d c s).world.trace =
      [.findByAddress found.address, .updateEmail { found with verified := true },
       .audit AuditLogEmailVerified userId found.address c.GetFlowID] := by
  rw [Execute_parsed d c s userId hv he hu hp, FindByAddress_ok d _ _ (hfail _), ha]
  simp only [World.log, find?_address_some hs.2 hf]
  rw [persistStage_update d _ userId _ found hs hf hver (hfail _)]
  simp only
  rw [auditStage_ok d c _ userId _ false (fun _ => hfail _)]
  simp [hl]

/-- On scenario B "a@x.com" flips to verified, nothing else changes, one "email
verified" audit entry, no notification. -/
theorem Execute_update_to_verified_witness :
    (Execute exDeps (exContext "password") exStoreB).err = none ∧
    (Execute exDeps (exContext "password") exStoreB).world.store =
      ⟨[⟨7, 0⟩], [⟨1, some 7, "a@x.com", true⟩, ⟨2, some 7, "b@x.com", true⟩], [⟨10, 2, 7⟩],
        [], [], [], []⟩ ∧
    (Execute exDeps (exContext "password") exStoreB).world.trace =
      [.findByAddress "a@x.com", .updateEmail ⟨1, some 7, "a@x.com", true⟩,
       .audit AuditLogEmailVerified 7 "a@x.com" "flow-1"] := by
  have h := Execute_update_to_verified exDeps (exContext "password") exStoreB
    ⟨1, some 7, "a@x.com", false⟩ 7 (by decide) (by decide) rfl rfl rfl rfl rfl rfl
    (by decide) (fun _ => rfl)
  exact ⟨h.1, h.2.1.trans (by decide), h.2.2.trans (by decide)⟩

/-- C5, amended (already-verified branch under passcode login).  In a store whose email
with the pending address is verified, with verified = true, a parseable user id and login
method "passcode", a run of `Execute` in which the lookup of the address does not fail
returns `nil`, leaves the store and the live user view unchanged, and makes no call other
than that lookup: no write, no audit entry, no notification. -/
theorem Execute_already_verified_passcode (d : Deps) (c : HookExecutionContext) (s : Store)
    (found : Email) (userId : UUID)
    (hs : s.Valid)
    (hf : found ∈ s.emails)
    (hver : found.verified = true)
    (hv : (c.Stash StashPathEmailVerified).Bool = true)
    (he : (c.Stash StashPathEmail).Exists = true)
    (ha : (c.Stash StashPathEmail).String = found.address)
    (hu : (c.Stash StashPathUserID).Exists = true)
    (hp : d.FromString (c.Stash StashPathUserID).String = .ok userId)
    (hl : (c.Stash StashPathLoginMethod).String = "passcode")
    (hfind : d.fails (.findByAddress found.address) = none) :
    (Execute d c s).err = none ∧
    (Execute d c s).world.store = s ∧
    (Execute d c s).world.sessionUser = c.sessionUser ∧
    (Execute d c s).world.trace = [.findByAddress found.address] := by
  rw [Execute_parsed d c s userId hv he hu hp, FindByAddress_ok d _ _ (ha ▸ hfind), ha]
  simp only [World.log, find?_address_some hs.2 hf]
  rw [persistStage_verified d _ userId _ found hver]
  simp [auditStage, hl]

/-- On scenario E with login method "passcode": success, store unchanged, the lookup is the
only call. -/
theorem Execute_already_verified_passcode_witness :
    (Execute exDeps (exContext "passcode") exStoreE).err = none ∧
    (Execute exDeps (exContext "passcode") exStoreE).world.store = exStoreE ∧
    (Execute exDeps (exContext "passcode") exStoreE).world.sessionUser = none ∧
    (Execute exDeps (exContext "passcode") exStoreE).world.trace = [.findByAddress "a@x.com"] :=
  Execute_already_verified_passcode exDeps (exContext "passcode") exStoreE
    ⟨1, some 7, "a@x.com", true⟩ 7 (by decide) (by decide) rfl rfl rfl rfl rfl rfl rfl rfl

/-- Success is not guaranteed when the lookup fails: in scenario E (the email with the
pending address is verified, verified = true, parseable user id, login method "passcode"),
a run whose lookup fails does not return success: it returns the lookup's error wrapped in
"could not fetch email". -/
theorem lookup_failure_under_passcode :
    (⟨1, some 7, "a@x.com", true⟩ : Email) ∈ exStoreE.emails ∧
    ((exContext "passcode").Stash StashPathEmailVerified).Bool = true ∧
    ((exContext "passcode").Stash StashPathEmail).String = "a@x.com" ∧
    exDepsLookupFails.FromString ((exContext "passcode").Stash StashPathUserID).String = .ok 7 ∧
    ((exContext "passcode").Stash StashPathLoginMethod).String = "passcode" ∧
    ¬ (Execute exDepsLookupFails (exContext "passcode") exStoreE).err = none ∧
    (Execute exDepsLookupFails (exContext "passcode") exStoreE).err =
      some (.wrap "could not fetch email" (.new "connection refused")) :=
  ⟨by decide, rfl, rfl, rfl, rfl, by decide, by decide⟩

/-- C6 (missing or malformed context).  For every scratch space with verified = true:
if the pending email is absent, `Execute` returns the error "verified email not set on the
stash"; otherwise, if the user id is absent, it returns "user_id not set on the stash";
otherwise, if the user id does not parse as a uuid, it returns the parser's error wrapped
in "failed to parse stashed user_id into a uuid"; and in each of the three cases the store
and the live user view are unchanged and no call has been made (empty trace). -/
theorem Execute_missing_context (d : Deps) (c : HookExecutionContext) (s : Store)
    (hv : (c.Stash StashPathEmailVerified).Bool = true) :
    ((c.Stash StashPathEmail).Exists = false →
        Execute d c s = ⟨some (.new "verified email not set on the stash"), ⟨s, c.sessionUser, []⟩⟩) ∧
    ((c.Stash StashPathEmail).Exists = true → (c.Stash StashPathUserID).Exists = false →
        Execute d c s = ⟨some (.new "user_id not set on the stash"), ⟨s, c.sessionUser, []⟩⟩) ∧
    (∀ cause, (c.Stash StashPathEmail).Exists = true → (c.Stash StashPathUserID).Exists = true →
        d.FromString (c.Stash StashPathUserID).String = .error cause →
        Execute d c s = ⟨some (.wrap "failed to parse stashed user_id into a uuid" cause),
          ⟨s, c.sessionUser, []⟩⟩) := by
  refine ⟨fun he => ?_, fun he hu => ?_, fun cause he hu hp => ?_⟩
  · simp [Execute, hv, he]
  · simp [Execute, hv, he, hu]
  · simp [Execute, hv, he, hu, hp]

/-- On three stashes: no email, no user id, a user id that does not parse. -/
theorem Execute_missing_context_witness :
    Execute exDeps exContextNoEmail exStoreB =
      ⟨some (.new "verified email not set on the stash"), ⟨exStoreB, none, []⟩⟩ ∧
    Execute exDeps exContextNoUser exStoreB =
      ⟨some (.new "user_id not set on the stash"), ⟨exStoreB, none, []⟩⟩ ∧
    Execute exDeps exContextBadUser exStoreB =
      ⟨some (.wrap "failed to parse stashed user_id into a uuid"
        (.new "uuid: incorrect UUID length")), ⟨exStoreB, none, []⟩⟩ :=
  ⟨(Execute_missing_context exDeps exContextNoEmail exStoreB rfl).1 rfl,
    (Execute_missing_context exDeps exContextNoUser exStoreB rfl).2.1 rfl rfl,
    (Execute_missing_context exDeps exContextBadUser exStoreB rfl).2.2 _ rfl rfl rfl⟩

/-- C7 (unverified no-op).  For every store and every scratch space in which the "email
verified" signal is absent or false, whatever the other entries are, `Execute` returns
`nil`, leaves the store and the live user view unchanged and makes no call at all: no
store read or write, no audit entry, no notification. -/
theorem Execute_unverified_noop (d : Deps) (c : HookExecutionContext) (s : Store)
    (h : (c.Stash StashPathEmailVerified).Exists = false ∨
      (c.Stash StashPathEmailVerified).Bool = false) :
    (Execute d c s).err = none ∧ (Execute d c s).world.store = s ∧
      (Execute d c s).world.sessionUser = c.sessionUser ∧ (Execute d c s).world.trace = [] := by
  have hb : (c.Stash StashPathEmailVerified).Bool = false :=
    h.elim (Result.bool_of_not_exists _) id
  simp [Execute, hb]

/-- On an empty stash the hook does nothing. -/
theorem Execute_unverified_noop_witness :
    (exContextEmpty.Stash StashPathEmailVerified).Exists = false ∧
    (Execute exDeps exContextEmpty exStoreB).err = none ∧
    (Execute exDeps exContextEmpty exStoreB).world.store = exStoreB ∧
    (Execute exDeps exContextEmpty exStoreB).world.sessionUser = none ∧
    (Execute exDeps exContextEmpty exStoreB).world.trace = [] :=
  ⟨rfl, Execute_unverified_noop exDeps exContextEmpty exStoreB (Or.inl rfl)⟩

/-- C8 (audit failure is fatal and precedes notification).  In every run of `Execute`, if a
call made to the audit logger ("email verified" or "email created") returns an error,
`Execute` returns that error wrapped in "could not create audit log" and the notifier is
not called in that run.  Conversely the outcome of the notifier has no influence: changing
what the notifier's call returns changes nothing in what `Execute` returns or does. -/
theorem Execute_audit_failure_fatal (d : Deps) (c : HookExecutionContext) (s : Store) :
    (∀ a cause, a ∈ (Execute d c s).world.trace → a.isAudit = true → d.fails a = some cause →
      (Execute d c s).err = some (.wrap "could not create audit log" cause) ∧
      ∀ e ∈ (Execute d c s).world.trace, e.isNotify = false) ∧
    (∀ f : Effect → Option Error, (∀ e, e.isNotify = false → f e = d.fails e) →
      Execute { d with fails := f } c s = Execute d c s) := by
  constructor
  · intro a cause ha hk hf
    rcases Execute_shape d c s with h | ⟨err, h⟩ | ⟨userId, h⟩
    · rw [h] at ha; simp at ha
    · rw [h] at ha
      simp only [List.mem_singleton] at ha
      subst ha
      simp [Effect.isAudit] at hk
    · rw [h] at ha ⊢
      have htr := persistStage_trace d
        ⟨s, c.sessionUser, [.findByAddress (c.Stash StashPathEmail).String]⟩ userId
        (c.Stash StashPathEmail).String
        (s.emails.find? (fun e => decide (e.address = (c.Stash StashPathEmail).String)))
      revert ha htr
      generalize persistStage d _ userId _ _ = r
      obtain ⟨r, w2⟩ := r
      intro ha htr
      have hw2 : ∀ e ∈ w2.trace, e.isStore = true := by
        intro e he
        rcases htr e he with h1 | h1
        · simp only [List.mem_singleton] at h1; subst h1; rfl
        · exact h1
      cases r with
      | error err =>
        simp only at ha
        have := (store_not_audit (hw2 a ha)).1
        simp [hk] at this
      | ok created =>
        simp only at ha ⊢
        exact auditStage_failure d c w2 userId _ created a cause hw2 ha hk hf
  · intro f hf
    have h1 : ∀ x, f (.findByAddress x) = d.fails (.findByAddress x) := fun _ => hf _ rfl
    have h2 : ∀ x, f (.createEmail x) = d.fails (.createEmail x) := fun _ => hf _ rfl
    have h3 : ∀ x, f (.findByUserId x) = d.fails (.findByUserId x) := fun _ => hf _ rfl
    have h4 : ∀ x, f (.createPrimaryEmail x) = d.fails (.createPrimaryEmail x) :=
      fun _ => hf _ rfl
    have h5 : ∀ x, f (.updateEmail x) = d.fails (.updateEmail x) := fun _ => hf _ rfl
    have h6 : ∀ t u e x, f (.audit t u e x) = d.fails (.audit t u e x) := fun _ _ _ _ => hf _ rfl
    simp only [Execute, EmailPersister.FindByAddress, persistStage, EmailPersister.Create, EmailPersister.FindByUserId,
      PrimaryEmailPersister.Create, EmailPersister.Update, auditStage, AuditLogger.CreateWithConnection, NotifyUserChange,
      NewEmail, NewPrimaryEmail, h1, h2, h3, h4, h5, h6]

/-- On scenario A with an audit logger that fails on "email created": the error is
returned wrapped and the notifier is not called. -/
theorem Execute_audit_failure_fatal_witness :
    (Execute exDepsAuditFails (exContext "password") exStoreA).err =
      some (.wrap "could not create audit log" (.new "audit log unavailable")) ∧
    ∀ e ∈ (Execute exDepsAuditFails (exContext "password") exStoreA).world.trace,
      e.isNotify = false :=
  (Execute_audit_failure_fatal exDepsAuditFails (exContext "password") exStoreA).1
    (.audit AuditLogEmailCreated 7 "a@x.com" "flow-1") (.new "audit log unavailable")
    (by decide) rfl rfl

/-! ## Properties of `List` and `Count` -/

/-- C9 (completeness exclusion).  For every store, every database behaviour, page, page
size, id filter, email substring, username substring and sort direction, a user that owns
no email and no username does not appear in the result of `List`, and is not counted by
`Count` (the count is the one of the store without that user), whatever credentials, OTP
secret and metadata the user owns. -/
theorem List_Count_exclude_incomplete (db : Database) (s : Store) (page perPage : Int)
    (userIDs : List UUID) (email username sortDirection : String) (u : UUID)
    (he : ∀ e ∈ s.emails, e.userID ≠ some u) (hn : ∀ n ∈ s.usernames, n.userID ≠ u) :
    (∀ users, userPersister.List db s page perPage userIDs email username sortDirection
        = .ok users → ∀ x ∈ users, x.id ≠ u) ∧
    userPersister.Count db s userIDs email username =
      userPersister.Count db { s with users := s.users.filter (fun x => x.id ≠ u) }
        userIDs email username := by
  constructor
  · intro users hl x hx hxu
    unfold userPersister.List listResult at hl
    simp only at hl
    split at hl
    · split_ifs at hl
      cases hl
      simp at hx
    · rename_i rows hrows
      cases hl
      simp only [List.mem_map] at hx
      obtain ⟨r, hr, rfl⟩ := hx
      have hsel := mem_fetchPage db sortDirection page perPage _ rows r hrows hr
      simp only [selectedUsers, List.mem_filter] at hsel
      have hru : r.id = u := hxu
      rw [not_selected_of_incomplete db s _ r (hru ▸ he) (hru ▸ hn)] at hsel
      simp at hsel
  · unfold userPersister.Count
    cases db.fails with
    | some err => rfl
    | none =>
      have key : ∀ r : UserRow,
          ((!(groupOf db s (addQueryParamsToSqlQuery Query.Q userIDs email username) r).isEmpty &&
            having (groupOf db s (addQueryParamsToSqlQuery Query.Q userIDs email username) r)) &&
            decide (r.id ≠ u)) =
          (!(groupOf db s (addQueryParamsToSqlQuery Query.Q userIDs email username) r).isEmpty &&
            having (groupOf db s (addQueryParamsToSqlQuery Query.Q userIDs email username) r)) := by
        intro r
        by_cases hru : r.id = u
        · rw [not_selected_of_incomplete db s _ r (hru ▸ he) (hru ▸ hn)]; rfl
        · simp [hru]
      show Except.ok (List.length (List.filter _ s.users)) =
        Except.ok (List.length (List.filter
          (fun r => !(groupOf db s (addQueryParamsToSqlQuery Query.Q userIDs email username)
              r).isEmpty &&
            having (groupOf db s (addQueryParamsToSqlQuery Query.Q userIDs email username) r))
          (List.filter (fun x => decide (x.id ≠ u)) s.users)))
      rw [List.filter_filter]
      simp only [key]

/-- On the example store user 9 is neither listed nor counted, also for the sort direction
`Desc` and for a page number whose offset wraps: it owns a credential, an OTP secret and
metadata, but no email and no username. -/
theorem List_Count_exclude_incomplete_witness :
    (∀ e ∈ exStoreL.emails, e.userID ≠ some 9) ∧ (∀ n ∈ exStoreL.usernames, n.userID ≠ 9) ∧
    (userPersister.List exDatabase exStoreL 4611686018427387905 4 [] "" "" "Desc").toOption.map
      (fun users => users.map (·.id)) = some [8, 7] ∧
    (∀ users, userPersister.List exDatabase exStoreL 4611686018427387905 4 [] "" "" "Desc"
      = .ok users → ∀ x ∈ users, x.id ≠ 9) ∧
    userPersister.Count exDatabase exStoreL [] "" "" =
      userPersister.Count exDatabase
        { exStoreL with users := exStoreL.users.filter (fun x => x.id ≠ 9) } [] "" "" :=
  ⟨by decide, by decide, by decide,
    List_Count_exclude_incomplete exDatabase exStoreL 4611686018427387905 4 [] "" "" "Desc" 9
      (by decide) (by decide)⟩

/-- C10, amended (filter semantics shared by `List` and `Count`).  For every database, every
id set, and every email substring and username substring without the characters `LIKE`
patterns treat specially (`%`, `_` and the escape character of the database), such that
the id set is empty or at most one of the substrings is non-empty: the condition built by
`addQueryParamsToSqlQuery` selects a user exactly when (a) with both substrings, the user
owns an email whose address contains the email substring or a username containing the
username substring; with one substring, the user matches that one; with none, every user
matches; and (b) when the id set is non-empty, the user's id is a member of it.  "Contains"
compares characters the way the `LIKE` of the database does (ignoring case on a database
whose collation ignores it).  `List` and `Count` apply this same condition: `Count` counts
the users that satisfy it and own an email or a username, and `List` returns the page the
database cuts out of these users, sorted. -/
theorem filter_semantics (db : Database) (s : Store) (userIDs : List UUID)
    (email username : String)
    (hwe : noWildcard db email) (hwu : noWildcard db username)
    (hcase : userIDs = [] ∨ email = "" ∨ username = "") :
    (∀ u, selects db s userIDs email username u ↔ specFilter db s userIDs email username u) ∧
    userPersister.Count db s userIDs email username =
      (match db.fails with
        | some err => .error (.wrap "failed to get user count" err)
        | none => .ok (s.users.filter
            (fun u => decide (specFilter db s userIDs email username u ∧ complete s u))).length) ∧
    (∀ (page perPage : Int) (sortDirection : String),
      userPersister.List db s page perPage userIDs email username sortDirection =
        listResult s (fetchPage db sortDirection page perPage (s.users.filter
          (fun u => decide (specFilter db s userIDs email username u ∧ complete s u))))) := by
  have hiff := fun u => selects_iff_specFilter db s userIDs email username u hwe hwu hcase
  have hsel : selectedUsers db s (addQueryParamsToSqlQuery Query.Q userIDs email username) =
      s.users.filter
        (fun u => decide (specFilter db s userIDs email username u ∧ complete s u)) := by
    rw [selectedUsers_eq]
    apply List.filter_congr
    intro u _
    simp only [hiff u]
  refine ⟨hiff, ?_, ?_⟩
  · unfold userPersister.Count
    cases db.fails with
    | some err => rfl
    | none => exact congrArg (fun l => Except.ok (List.length l)) hsel
  · intro page perPage sortDirection
    unfold userPersister.List
    simp only [hsel]

/-- On the example store, with the email substring "a@x" and the id set [7, 9], only user 7
is counted and listed (here with the sort direction `Desc` and a page number whose offset
wraps to 0); and on a database that ignores case the substring "A@X" selects user 7. -/
theorem filter_semantics_witness :
    noWildcard exDatabase "a@x" ∧ noWildcard exDatabase "" ∧
    (∀ u, selects exDatabase exStoreL [7, 9] "a@x" "" u ↔
      specFilter exDatabase exStoreL [7, 9] "a@x" "" u) ∧
    userPersister.Count exDatabase exStoreL [7, 9] "a@x" "" = .ok 1 ∧
    userPersister.List exDatabase exStoreL 4611686018427387905 4 [7, 9] "a@x" "" "Desc" =
      .ok [⟨7, 0, [⟨1, some 7, "a@x.com", true⟩], some ⟨10, 1, 7⟩, [], none⟩] ∧
    noWildcard exDatabaseNoCase "A@X" ∧
    (∀ u, selects exDatabaseNoCase exStoreL [] "A@X" "" u ↔
      specFilter exDatabaseNoCase exStoreL [] "A@X" "" u) ∧
    selects exDatabaseNoCase exStoreL [] "A@X" "" ⟨7, 0⟩ :=
  ⟨by decide, by decide,
    (filter_semantics exDatabase exStoreL [7, 9] "a@x" "" (by decide) (by decide)
      (by decide)).1,
    (filter_semantics exDatabase exStoreL [7, 9] "a@x" "" (by decide) (by decide)
      (by decide)).2.1,
    (filter_semantics exDatabase exStoreL [7, 9] "a@x" "" (by decide) (by decide)
      (by decide)).2.2 4611686018427387905 4 "Desc",
    by decide,
    (filter_semantics exDatabaseNoCase exStoreL [] "A@X" "" (by decide) (by decide)
      (by decide)).1,
    by decide⟩

/-- The stated filter semantics does not hold in general: with the email substring "_",
user 8 is selected although its address "b@y.org" does not contain "_" (`_` is a wildcard
of `LIKE`). -/
theorem wildcard_selection :
    selects exDatabase exStoreL [] "_" "" ⟨8, 1⟩ ∧
      ¬ specFilter exDatabase exStoreL [] "_" "" ⟨8, 1⟩ := by
  decide

/-- With both substrings "a" and "zz" and the id set [8], user 7 is selected, listed and
counted although its id is not in the id set: the generated condition is
`emails.address LIKE ? OR usernames.username LIKE ? AND users.id in (?)`, in which `AND`
binds tighter than `OR`. -/
theorem id_filter_skipped_with_both_substrings :
    (addQueryParamsToSqlQuery Query.Q [8] "a" "zz").whereSQL =
      some [[.emailLike "%a%"], [.usernameLike "%zz%", .userIdIn [8]]] ∧
    selects exDatabase exStoreL [8] "a" "zz" ⟨7, 0⟩ ∧
    ¬ specFilter exDatabase exStoreL [8] "a" "zz" ⟨7, 0⟩ ∧
    (userPersister.List exDatabase exStoreL 1 10 [8] "a" "zz" "asc").toOption.map
      (fun users => users.map (·.id)) = some [7] ∧
    (userPersister.Count exDatabase exStoreL [8] "a" "zz").toOption = some 1 := by
  decide

end Hanko
